import Mathlib

/-!
Shallow embedding of the ralph-cli core: the stream protocol decoder/filter
(`stream-formatter`), the task selection and readiness policy, the agent
process result classification (`claude-executor`), and the iteration
orchestrator (`runIterations`, beads workflow).  Text is modelled as
`List Char` (JavaScript strings), machine numbers as `Int`/`Rat`.
-/

/-- Characters treated as whitespace by JavaScript `String.prototype.trim`
and by the regexp class `\s` (ASCII portion). -/
def jsWsChar (c : Char) : Bool :=
  c = ' ' || c = '\t' || c = '\n' || c = '\r' || c = '\x0b' || c = '\x0c'

/-- Model of JavaScript `String.prototype.trim`. -/
def jsTrim (s : List Char) : List Char :=
  ((s.dropWhile jsWsChar).reverse.dropWhile jsWsChar).reverse

/-- Character class `[\n\r\t]` of the first regexp in `normalizeWhitespace`. -/
def nlrtChar (c : Char) : Bool :=
  c = '\n' || c = '\r' || c = '\t'

/-- `replaceAll(/[\n\r\t]+/g, ' ')`: every maximal run of characters from the
class is replaced by one space.  The boolean argument records whether the
previous character belonged to the current run. -/
def collapseNlrt : List Char → Bool → List Char
  | [], _ => []
  | c :: cs, inRun =>
    if nlrtChar c then
      if inRun then collapseNlrt cs true else ' ' :: collapseNlrt cs true
    else c :: collapseNlrt cs false

/-- Emit one pending whitespace run for `replaceAll(/\s{2,}/g, ' ')`:
runs of length at least two collapse to a single space, shorter runs are
kept as they are. -/
def emitWsRun (run : List Char) : List Char :=
  if 2 ≤ run.length then [' '] else run

/-- `replaceAll(/\s{2,}/g, ' ')`; the first argument is the whitespace run
read so far. -/
def collapseWs2Go : List Char → List Char → List Char
  | run, [] => emitWsRun run
  | run, c :: cs =>
    if jsWsChar c then collapseWs2Go (run ++ [c]) cs
    else emitWsRun run ++ c :: collapseWs2Go [] cs

/-- Model of `normalizeWhitespace` from the stream formatter: newlines and
tabs become spaces, then runs of two or more whitespace characters collapse
to a single space. -/
def normalizeWhitespace (s : List Char) : List Char :=
  collapseWs2Go [] (collapseNlrt s false)

/-- `MAX_CONTENT_LENGTH` from the stream formatter. -/
def MAX_CONTENT_LENGTH : Nat := 200

/-- Model of `truncate` from the stream formatter. -/
def truncate (text : List Char) (maxLength : Nat := MAX_CONTENT_LENGTH) : List Char :=
  let normalized := normalizeWhitespace text
  if normalized.length ≤ maxLength then normalized
  else normalized.take maxLength ++ "... [truncated]".data

/-- JSON values as produced by `JSON.parse`.  Object fields keep their
textual order; a duplicated key is resolved by `getProp` (last wins), as in
JavaScript. -/
inductive Json where
  | null : Json
  | bool (b : Bool) : Json
  | num (q : Rat) : Json
  | str (s : List Char) : Json
  | arr (elems : List Json) : Json
  | obj (fields : List (List Char × Json)) : Json

/-- Value of the last field named `k`, as JavaScript property lookup on an
object built by `JSON.parse` (later duplicate keys overwrite earlier ones). -/
def lookupLastVal (fields : List (List Char × Json)) (k : List Char) : Option Json :=
  fields.foldl (fun acc f => if f.1 = k then some f.2 else acc) none

/-- JavaScript property access `value[k]` for the property names the
formatter uses (never array indices): defined on objects, `undefined`
(`none`) on arrays and primitives. -/
def getProp (j : Json) (k : List Char) : Option Json :=
  match j with
  | Json.obj fields => lookupLastVal fields k
  | _ => none

/-- `typeof v === 'object' && v !== null`: true exactly for JSON objects and
arrays (JavaScript arrays have `typeof` `'object'`). -/
def jsObjectNonNull (j : Json) : Bool :=
  match j with
  | Json.obj _ => true
  | Json.arr _ => true
  | _ => false

/-- JavaScript truthiness of a possibly-absent value. -/
def jsTruthy (v : Option Json) : Bool :=
  match v with
  | none => false
  | some Json.null => false
  | some (Json.bool b) => b
  | some (Json.num q) => q ≠ 0
  | some (Json.str s) => s ≠ []
  | some (Json.arr _) => true
  | some (Json.obj _) => true

/-- Decimal digits of a natural number, most significant first. -/
def natDigits (n : Nat) : List Char :=
  (Nat.toDigits 10 n)

/-- Decimal rendering of an integer. -/
def intToChars (i : Int) : List Char :=
  if i < 0 then '-' :: natDigits i.natAbs else natDigits i.natAbs

/-- Expand the fractional part of a rational in decimal, up to `fuel`
digits, dropping trailing zeros (the rationals the formatter meets have
finite expansions). -/
def fracDigits : Nat → Rat → List Char
  | 0, _ => []
  | fuel + 1, q =>
    if q = 0 then []
    else
      let q10 := q * 10
      let d := q10.floor
      Char.ofNat (48 + d.toNat) :: fracDigits fuel (q10 - (d : Rat))

/-- Model of JavaScript `Number#toString` on the numbers the formatter can
meet: exact decimal rendering of a rational with finite decimal expansion. -/
def numAbsToChars (q : Rat) : List Char :=
  let ip := q.floor.toNat
  let fp := q - (q.floor : Rat)
  if fp = 0 then natDigits ip
  else natDigits ip ++ '.' :: fracDigits 30 fp

/-- Signed decimal rendering of a rational. -/
def numToChars (q : Rat) : List Char :=
  if q < 0 then '-' :: numAbsToChars (-q) else numAbsToChars q

mutual

/-- JavaScript `String(v)` / template-literal conversion of a JSON value. -/
def jsToString : Json → List Char
  | Json.null => "null".data
  | Json.bool b => if b then "true".data else "false".data
  | Json.num q => numToChars q
  | Json.str s => s
  | Json.arr elems => jsJoinArr elems
  | Json.obj _ => "[object Object]".data

/-- `Array#join(',')` as used by `String` on an array: `null` elements
render as the empty string. -/
def jsJoinArr : List Json → List Char
  | [] => []
  | [Json.null] => []
  | [x] => jsToString x
  | Json.null :: y :: rest => ',' :: jsJoinArr (y :: rest)
  | x :: y :: rest => jsToString x ++ ',' :: jsJoinArr (y :: rest)

end

/-- Conversion applied to each element of `parts` by `parts.join('')`:
`undefined` and `null` become the empty string. -/
def joinElem (v : Option Json) : List Char :=
  match v with
  | none => []
  | some Json.null => []
  | some v => jsToString v

/-- Conversion done by a template literal `${v}`: `undefined` is rendered
as the word `undefined`. -/
def templateElem (v : Option Json) : List Char :=
  match v with
  | none => "undefined".data
  | some v => jsToString v

/-- JSON string escaping as in `JSON.stringify`. -/
def stringifyChars : List Char → List Char
  | [] => []
  | c :: cs =>
    (if c = '"' then "\\\"".data
     else if c = '\\' then "\\\\".data
     else if c = '\n' then "\\n".data
     else if c = '\r' then "\\r".data
     else if c = '\t' then "\\t".data
     else if c = '\x08' then "\\b".data
     else if c = '\x0c' then "\\f".data
     else if c.val < 32 then
       "\\u00".data ++ [Char.ofNat (48 + c.val.toNat / 16),
         (if c.val.toNat % 16 < 10 then Char.ofNat (48 + c.val.toNat % 16)
          else Char.ofNat (87 + c.val.toNat % 16))]
     else [c]) ++ stringifyChars cs

mutual

/-- Model of `JSON.stringify` on parsed JSON values. -/
def jsStringify : Json → List Char
  | Json.null => "null".data
  | Json.bool b => if b then "true".data else "false".data
  | Json.num q => numToChars q
  | Json.str s => '"' :: stringifyChars s ++ ['"']
  | Json.arr elems => '[' :: jsStringifyArr elems ++ [']']
  | Json.obj fields => '\x7b' :: jsStringifyFields fields ++ ['\x7d']

/-- Comma-joined stringification of array elements. -/
def jsStringifyArr : List Json → List Char
  | [] => []
  | [x] => jsStringify x
  | x :: y :: rest => jsStringify x ++ ',' :: jsStringifyArr (y :: rest)

/-- Comma-joined stringification of object members. -/
def jsStringifyFields : List (List Char × Json) → List Char
  | [] => []
  | [(k, v)] => '"' :: stringifyChars k ++ ['"', ':'] ++ jsStringify v
  | (k, v) :: g :: rest =>
    ('"' :: stringifyChars k ++ ['"', ':'] ++ jsStringify v) ++
      ',' :: jsStringifyFields (g :: rest)

end

/-- `Object.entries` on a parsed JSON object: first-occurrence key order,
last-occurrence value (the shape the formatter's `summarizeToolInput`
iterates over). -/
def jsEntries (fields : List (List Char × Json)) : List (List Char × Json) :=
  ((fields.map Prod.fst).dedup).map fun k => (k, (lookupLastVal fields k).getD Json.null)

/-- JSON inter-token whitespace accepted by `JSON.parse`. -/
def jsonWsChar (c : Char) : Bool :=
  c = ' ' || c = '\t' || c = '\n' || c = '\r'

/-- Skip JSON whitespace. -/
def skipJsonWs (s : List Char) : List Char :=
  s.dropWhile jsonWsChar

/-- Hexadecimal digit value. -/
def hexVal (c : Char) : Option Nat :=
  if '0' ≤ c ∧ c ≤ '9' then some (c.toNat - 48)
  else if 'a' ≤ c ∧ c ≤ 'f' then some (c.toNat - 87)
  else if 'A' ≤ c ∧ c ≤ 'F' then some (c.toNat - 55)
  else none

/-- Single-character JSON string escapes. -/
def escChar (c : Char) : Option Char :=
  if c = '"' then some '"'
  else if c = '\\' then some '\\'
  else if c = '/' then some '/'
  else if c = 'b' then some '\x08'
  else if c = 'f' then some '\x0c'
  else if c = 'n' then some '\n'
  else if c = 'r' then some '\r'
  else if c = 't' then some '\t'
  else none

/-- Parse the body of a JSON string after the opening quote; returns the
decoded characters and the input after the closing quote. -/
def parseJsonString : Nat → List Char → Option (List Char × List Char)
  | 0, _ => none
  | _ + 1, [] => none
  | fuel + 1, c :: rest =>
    if c = '"' then some ([], rest)
    else if c = '\\' then
      match rest with
      | [] => none
      | e :: rest2 =>
        if e = 'u' then
          match rest2 with
          | a :: b :: c3 :: d :: rest3 =>
            match hexVal a, hexVal b, hexVal c3, hexVal d with
            | some ha, some hb, some hc, some hd =>
              (parseJsonString fuel rest3).map fun p =>
                (Char.ofNat (((ha * 16 + hb) * 16 + hc) * 16 + hd) :: p.1, p.2)
            | _, _, _, _ => none
          | _ => none
        else
          match escChar e with
          | some ec => (parseJsonString fuel rest2).map fun p => (ec :: p.1, p.2)
          | none => none
    else if c.val < 32 then none
    else (parseJsonString fuel rest).map fun p => (c :: p.1, p.2)

/-- Digit predicate. -/
def isDigitChar (c : Char) : Bool :=
  '0' ≤ c && c ≤ '9'

/-- Value of a digit run. -/
def digitsToNat (ds : List Char) : Nat :=
  ds.foldl (fun acc c => acc * 10 + (c.toNat - 48)) 0

/-- Parse a JSON number (sign, integer part without leading zeros,
optional fraction, optional exponent) into a rational. -/
def parseJsonNumber (s : List Char) : Option (Rat × List Char) :=
  let (neg, s1) := match s with
    | '-' :: rest => (true, rest)
    | _ => (false, s)
  let intDs := s1.takeWhile isDigitChar
  let s2 := s1.dropWhile isDigitChar
  if intDs = [] then none
  else if 2 ≤ intDs.length ∧ intDs.head? = some '0' then none
  else
    let (fracDs, s3) := match s2 with
      | '.' :: rest => (rest.takeWhile isDigitChar, rest.dropWhile isDigitChar)
      | _ => ([], s2)
    if s2.head? = some '.' ∧ fracDs = [] then none
    else
      let (expOk, expNeg, expDs, s4) := match s3 with
        | 'e' :: '+' :: rest => (!(rest.takeWhile isDigitChar).isEmpty, false, rest.takeWhile isDigitChar, rest.dropWhile isDigitChar)
        | 'e' :: '-' :: rest => (!(rest.takeWhile isDigitChar).isEmpty, true, rest.takeWhile isDigitChar, rest.dropWhile isDigitChar)
        | 'e' :: rest => (!(rest.takeWhile isDigitChar).isEmpty, false, rest.takeWhile isDigitChar, rest.dropWhile isDigitChar)
        | 'E' :: '+' :: rest => (!(rest.takeWhile isDigitChar).isEmpty, false, rest.takeWhile isDigitChar, rest.dropWhile isDigitChar)
        | 'E' :: '-' :: rest => (!(rest.takeWhile isDigitChar).isEmpty, true, rest.takeWhile isDigitChar, rest.dropWhile isDigitChar)
        | 'E' :: rest => (!(rest.takeWhile isDigitChar).isEmpty, false, rest.takeWhile isDigitChar, rest.dropWhile isDigitChar)
        | _ => (true, false, [], s3)
      if !expOk then none
      else
        let mantissa : Rat :=
          (digitsToNat intDs : Rat) + (digitsToNat fracDs : Rat) / ((10 : Rat) ^ fracDs.length)
        let expVal : Int := if expNeg then -(digitsToNat expDs : Int) else (digitsToNat expDs : Int)
        let mag : Rat := mantissa * (10 : Rat) ^ expVal
        some ((if neg then -mag else mag), s4)

/-- Parsing mode for the single-pass JSON parser: a value, the members of
an object (after the opening brace of a non-empty object), or the elements
of an array (after the opening bracket of a non-empty array).  Member and
element lists are carried as `Json.obj`/`Json.arr` so that the parser is a
single structurally recursive function on its fuel. -/
inductive JMode where
  | value : JMode
  | members : JMode
  | elements : JMode

/-- Recursive core of the `JSON.parse` model. -/
def parseJsonCore : Nat → JMode → List Char → Option (Json × List Char)
  | 0, _, _ => none
  | fuel + 1, JMode.value, s =>
    (match skipJsonWs s with
     | [] => none
     | c :: rest =>
       if c = '"' then (parseJsonString fuel rest).map fun p => (Json.str p.1, p.2)
       else if c = '\x7b' then
         match skipJsonWs rest with
         | '\x7d' :: rest2 => some (Json.obj [], rest2)
         | _ => parseJsonCore fuel JMode.members rest
       else if c = '[' then
         match skipJsonWs rest with
         | ']' :: rest2 => some (Json.arr [], rest2)
         | _ => parseJsonCore fuel JMode.elements rest
       else if c = 't' then
         match rest with
         | 'r' :: 'u' :: 'e' :: rest2 => some (Json.bool true, rest2)
         | _ => none
       else if c = 'f' then
         match rest with
         | 'a' :: 'l' :: 's' :: 'e' :: rest2 => some (Json.bool false, rest2)
         | _ => none
       else if c = 'n' then
         match rest with
         | 'u' :: 'l' :: 'l' :: rest2 => some (Json.null, rest2)
         | _ => none
       else if c = '-' ∨ isDigitChar c then
         (parseJsonNumber (c :: rest)).map fun p => (Json.num p.1, p.2)
       else none)
  | fuel + 1, JMode.members, s =>
    (match skipJsonWs s with
     | '"' :: rest =>
       match parseJsonString fuel rest with
       | none => none
       | some (key, rest2) =>
         match skipJsonWs rest2 with
         | ':' :: rest3 =>
           match parseJsonCore fuel JMode.value rest3 with
           | none => none
           | some (v, rest4) =>
             match skipJsonWs rest4 with
             | ',' :: rest5 =>
               (match parseJsonCore fuel JMode.members rest5 with
                | some (Json.obj fields, rest6) => some (Json.obj ((key, v) :: fields), rest6)
                | _ => none)
             | '\x7d' :: rest5 => some (Json.obj [(key, v)], rest5)
             | _ => none
         | _ => none
     | _ => none)
  | fuel + 1, JMode.elements, s =>
    (match parseJsonCore fuel JMode.value s with
     | none => none
     | some (v, rest) =>
       match skipJsonWs rest with
       | ',' :: rest2 =>
         (match parseJsonCore fuel JMode.elements rest2 with
          | some (Json.arr xs, rest3) => some (Json.arr (v :: xs), rest3)
          | _ => none)
       | ']' :: rest2 => some (Json.arr [v], rest2)
       | _ => none)

/-- Parse one JSON value (leading whitespace allowed). -/
def parseJsonValue (fuel : Nat) (s : List Char) : Option (Json × List Char) :=
  parseJsonCore fuel JMode.value s

/-- Model of `JSON.parse`: parse a complete JSON document, requiring only
whitespace after the value.  The fuel is large enough for any input of the
given length. -/
def parseJson (s : List Char) : Option Json :=
  match parseJsonValue (s.length + 1) s with
  | some (v, rest) => if skipJsonWs rest = [] then some v else none
  | none => none

/-- ANSI color constants of the stream formatter (`COLORS`). -/
def COLORS_reset : List Char := "\x1b[0m".data

/-- `COLORS.cyan`. -/
def COLORS_cyan : List Char := "\x1b[36m".data

/-- `COLORS.red`. -/
def COLORS_red : List Char := "\x1b[31m".data

/-- `COLORS.green`. -/
def COLORS_green : List Char := "\x1b[32m".data

/-- `COLORS.gray`. -/
def COLORS_gray : List Char := "\x1b[90m".data

/-- `COLORS.bold`. -/
def COLORS_bold : List Char := "\x1b[1m".data

/-- `FormattedOutputSource` from the stream formatter. -/
inductive FormattedOutputSource where
  | assistant : FormattedOutputSource
  | user : FormattedOutputSource
  | result : FormattedOutputSource
  | system : FormattedOutputSource
deriving DecidableEq, Repr

/-- `FormattedOutput` from the stream formatter. -/
structure FormattedOutput where
  source : FormattedOutputSource
  content : List Char
deriving DecidableEq, Repr

/-- Join string parts with a separator, as `Array#join` on strings. -/
def joinSep (sep : List Char) : List (List Char) → List Char
  | [] => []
  | [x] => x
  | x :: y :: rest => x ++ sep ++ joinSep sep (y :: rest)

/-- `Object.entries(input)` where `input` is an arbitrary runtime value:
objects give their fields, arrays their indexed elements, strings their
characters, other primitives nothing.  (On `null`/`undefined` JavaScript
would throw; such lines never reach this point in the formatter.) -/
def jsEntriesOf (input : Option Json) : List (List Char × Json) :=
  match input with
  | some (Json.obj fields) => jsEntries fields
  | some (Json.arr xs) => (xs.enum.map fun p => (intToChars p.1, p.2))
  | some (Json.str s) => (s.enum.map fun p => (intToChars p.1, Json.str [p.2]))
  | _ => []

/-- `summarizeToolInput` from the stream formatter. -/
def summarizeToolInput (input : Option Json) : List Char :=
  let entries := jsEntriesOf input
  if entries.isEmpty then "\x7b\x7d".data
  else
    joinSep ", ".data (entries.map fun kv =>
      let valueStr : List Char :=
        match kv.2 with
        | Json.str s => truncate s 50
        | Json.arr xs => '[' :: intToChars xs.length ++ " items]".data
        | Json.obj _ => "\x7b...\x7d".data
        | v => jsToString v
      kv.1 ++ ": ".data ++ valueStr)

/-- `formatToolUse` from the stream formatter. -/
def formatToolUse (name : Option Json) (input : Option Json) : List Char :=
  let inputSummary := summarizeToolInput input
  COLORS_cyan ++ '[' :: templateElem name ++ ']' :: COLORS_reset ++ ' ' ::
    COLORS_gray ++ truncate inputSummary ++ COLORS_reset ++ ['\n']

/-- `formatToolResult` from the stream formatter.  Non-string
`stdout`/`stderr` values (which would crash the JavaScript) are rendered
via `jsToString`. -/
def formatToolResult (content : Option Json) (isError : Bool)
    (toolResult : Option Json) : List Char :=
  let displayContent : List Char :=
    match content with
    | some (Json.str s) => s
    | some Json.null => []
    | none => []
    | some v => jsStringify v
  let state1 : List Char × Bool :=
    match toolResult with
    | some tr =>
      if jsObjectNonNull tr then
        let err1 := if jsTruthy (getProp tr "is_error".data) then true else isError
        match getProp tr "stderr".data with
        | some (Json.str s) =>
          if !s.isEmpty && !(jsTrim s).isEmpty then (s, true)
          else
            (match getProp tr "stdout".data with
             | some v => if jsTruthy (some v) then (jsToString v, err1) else (displayContent, err1)
             | none => (displayContent, err1))
        | some v =>
          if jsTruthy (some v) then (jsToString v, true)
          else
            (match getProp tr "stdout".data with
             | some w => if jsTruthy (some w) then (jsToString w, err1) else (displayContent, err1)
             | none => (displayContent, err1))
        | none =>
          (match getProp tr "stdout".data with
           | some v => if jsTruthy (some v) then (jsToString v, err1) else (displayContent, err1)
           | none => (displayContent, err1))
      else
        match tr with
        | Json.str s =>
          if s.take 6 = "Error:".data then (s, true) else (displayContent, isError)
        | _ => (displayContent, isError)
    | none => (displayContent, isError)
  let statusColor := if state1.2 then COLORS_red else COLORS_green
  let statusIcon : Char := if state1.2 then '✗' else '✓'
  if state1.1.isEmpty || (jsTrim state1.1).isEmpty then
    statusColor ++ statusIcon :: COLORS_reset ++ ['\n']
  else
    statusColor ++ statusIcon :: COLORS_reset ++ ' ' :: COLORS_gray ++
      truncate state1.1 ++ COLORS_reset ++ ['\n']

/-- The `message.content` array of a validated protocol frame. -/
def contentItems (j : Json) : List Json :=
  match getProp j "message".data with
  | some m =>
    match getProp m "content".data with
    | some (Json.arr xs) => xs
    | _ => []
  | none => []

/-- `item.type === t` for a content item of unknown runtime shape. -/
def itemTypeIs (item : Json) (t : List Char) : Bool :=
  match getProp item "type".data with
  | some (Json.str s) => s = t
  | _ => false

/-- `formatAssistantMessage` from the stream formatter. -/
def formatAssistantMessage (j : Json) : List Char :=
  ((contentItems j).map fun item =>
    if itemTypeIs item "text".data then [joinElem (getProp item "text".data)]
    else if itemTypeIs item "tool_use".data then
      [formatToolUse (getProp item "name".data) (getProp item "input".data)]
    else []).flatten.flatten

/-- `extractRawAssistantContent` from the stream formatter: plain text of an
assistant frame, tool invocations rendered as a short descriptive line,
parts joined by newlines. -/
def extractRawAssistantContent (j : Json) : List Char :=
  joinSep ['\n']
    (((contentItems j).map fun item =>
      if itemTypeIs item "text".data then [joinElem (getProp item "text".data)]
      else if itemTypeIs item "tool_use".data then
        ['[' :: templateElem (getProp item "name".data) ++ "] ".data ++
          summarizeToolInput (getProp item "input".data)]
      else []).flatten)

/-- `formatUserMessage` from the stream formatter. -/
def formatUserMessage (j : Json) : List Char :=
  ((contentItems j).map fun item =>
    if itemTypeIs item "tool_result".data then
      [formatToolResult (getProp item "content".data)
        (jsTruthy (getProp item "is_error".data))
        (getProp j "tool_use_result".data)]
    else []).flatten.flatten

/-- `Math.floor(v / 1000)` rendered as JavaScript would (`null` coerces to
`0`, non-numeric values give `NaN`). -/
def floorDiv1000Str (v : Json) : List Char :=
  match v with
  | Json.num q => intToChars (q / 1000).floor
  | Json.null => intToChars 0
  | _ => "NaN".data

/-- `Math.floor(v * 100) / 100` rendered as JavaScript would. -/
def floorCentsStr (v : Json) : List Char :=
  match v with
  | Json.num q => numToChars (((q * 100).floor : Rat) / 100)
  | Json.null => intToChars 0
  | _ => "NaN".data

/-- `formatResultMessage` from the stream formatter. -/
def formatResultMessage (j : Json) : List Char :=
  let isErr := jsTruthy (getProp j "is_error".data)
  let status := if isErr then "Error".data else "Completed".data
  let statusColor := if isErr then COLORS_red else COLORS_green
  ('\n' :: COLORS_bold ++ "━━━ ".data ++ statusColor ++ status ++ COLORS_reset) ++
  (match getProp j "duration_ms".data with
   | none => []
   | some d => ' ' :: COLORS_gray ++ "in ".data ++ floorDiv1000Str d ++ 's' :: COLORS_reset) ++
  (match getProp j "cost_usd".data with
   | none => []
   | some c => ' ' :: COLORS_gray ++ "($".data ++ floorCentsStr c ++ ')' :: COLORS_reset) ++
  (' ' :: COLORS_bold ++ "━━━".data ++ COLORS_reset ++ ['\n'])

/-- The `message.content`-is-array check shared by the `assistant` and
`user` cases of `isValidStreamMessage`. -/
def hasContentArray (j : Json) : Bool :=
  match getProp j "message".data with
  | some m =>
    if !jsObjectNonNull m then false
    else
      match getProp m "content".data with
      | some (Json.arr _) => true
      | _ => false
  | none => false

/-- `isValidStreamMessage` from the stream formatter: a parsed JSON value is
accepted as a protocol frame only if it satisfies its declared kind's
minimal shape. -/
def isValidStreamMessage (j : Json) : Bool :=
  if !jsObjectNonNull j then false
  else
    match getProp j "type".data with
    | some (Json.str t) =>
      if t = "assistant".data then hasContentArray j
      else if t = "user".data then hasContentArray j
      else if t = "system".data then true
      else if t = "result".data then true
      else false
    | _ => false

/-- `formatStreamLineWithSource` from the stream formatter: trim, parse,
validate, dispatch on the `type` discriminant. -/
def formatStreamLineWithSource (line : List Char) : Option FormattedOutput :=
  let trimmedLine := jsTrim line
  if trimmedLine.isEmpty then none
  else
    match parseJson trimmedLine with
    | none => none
    | some parsed =>
      if !isValidStreamMessage parsed then none
      else
        match getProp parsed "type".data with
        | some (Json.str t) =>
          if t = "assistant".data then
            let content := formatAssistantMessage parsed
            if content.isEmpty then none
            else some ⟨FormattedOutputSource.assistant, content⟩
          else if t = "user".data then
            let content := formatUserMessage parsed
            if content.isEmpty then none
            else some ⟨FormattedOutputSource.user, content⟩
          else if t = "result".data then
            let content := formatResultMessage parsed
            if content.isEmpty then none
            else some ⟨FormattedOutputSource.result, content⟩
          else none
        | _ => none

/-- `processLineForRawContent` from `createStreamFormatter`: the raw
assistant text a line contributes, if any. -/
def rawAssistantOfLine (line : List Char) : Option (List Char) :=
  let trimmedLine := jsTrim line
  if trimmedLine.isEmpty then none
  else
    match parseJson trimmedLine with
    | none => none
    | some parsed =>
      if !isValidStreamMessage parsed then none
      else
        match getProp parsed "type".data with
        | some (Json.str t) =>
          if t = "assistant".data then
            let rawContent := extractRawAssistantContent parsed
            if rawContent.isEmpty then none else some rawContent
          else none
        | _ => none

/-- Index of the last assistant message, the backward scan of
`filterMessagesForDisplay` (`-1` becomes `none`). -/
def lastAssistantIndex : List FormattedOutput → Option Nat
  | [] => none
  | m :: ms =>
    match lastAssistantIndex ms with
    | some k => some (k + 1)
    | none => if m.source = FormattedOutputSource.assistant then some 0 else none

/-- The filtering loop of `filterMessagesForDisplay`: keep a message if it
is an assistant message, a result message, or its index exceeds the last
assistant index `k`.  `i` is the index of the first message of the list. -/
def keepForDisplay (k : Nat) : Nat → List FormattedOutput → List FormattedOutput
  | _, [] => []
  | i, m :: ms =>
    if m.source = FormattedOutputSource.assistant ∨
       m.source = FormattedOutputSource.result ∨ k < i then
      m :: keepForDisplay k (i + 1) ms
    else keepForDisplay k (i + 1) ms

/-- `filterMessagesForDisplay` from the stream formatter. -/
def filterMessagesForDisplay (messages : List FormattedOutput) : List FormattedOutput :=
  match lastAssistantIndex messages with
  | none => messages
  | some k => keepForDisplay k 0 messages

/-- The closure state of `createStreamFormatter`: accumulated messages, raw
assistant text parts, and the trailing partial line. -/
structure FormatterState where
  allMessages : List FormattedOutput
  rawTextParts : List (List Char)
  incompleteLineBuffer : List Char
deriving DecidableEq, Repr

/-- The state of a freshly created stream formatter. -/
def initialFormatterState : FormatterState :=
  ⟨[], [], []⟩

/-- Processing one complete line: `processLineForRawContent` followed by
`formatStreamLineWithSource`, each appending its result when present. -/
def processLine (st : FormatterState) (line : List Char) : FormatterState :=
  { st with
    rawTextParts := st.rawTextParts ++ (rawAssistantOfLine line).toList
    allMessages := st.allMessages ++ (formatStreamLineWithSource line).toList }

/-- Processing a list of complete lines in order. -/
def processLines (st : FormatterState) (lines : List (List Char)) : FormatterState :=
  lines.foldl processLine st

/-- Prepend a character to the first segment of a split (the non-newline
case of `split`). -/
def consHead (c : Char) : List (List Char) → List (List Char)
  | [] => [[c]]
  | l :: ls => (c :: l) :: ls

/-- `String.prototype.split('\n')` on character lists. -/
def splitNl : List Char → List (List Char)
  | [] => [[]]
  | c :: cs => if c = '\n' then [] :: splitNl cs else consHead c (splitNl cs)

/-- Last element of a split (total, as the split is never empty). -/
def lastD : List (List Char) → List Char
  | [] => []
  | [l] => l
  | _ :: l :: ls => lastD (l :: ls)

/-- `chunk.endsWith('\n')`. -/
def endsWithNl (s : List Char) : Bool :=
  s.getLast? = some '\n'

/-- `processChunk` of `createStreamFormatter`: prepend the buffered partial
line, split on newlines, hold back the trailing partial line unless the
chunk ended with a newline, process the complete lines, and return the
filtered view of all messages so far. -/
def processChunk (st : FormatterState) (chunk : List Char) : FormatterState × List FormattedOutput :=
  let fullChunk := st.incompleteLineBuffer ++ chunk
  let lines0 := splitNl fullChunk
  let lines := if !endsWithNl chunk && 0 < lines0.length then lines0.dropLast else lines0
  let buf := if !endsWithNl chunk && 0 < lines0.length then lastD lines0 else []
  let st' := processLines { st with incompleteLineBuffer := buf } lines
  (st', filterMessagesForDisplay st'.allMessages)

/-- `getFilteredOutput` of `createStreamFormatter`: flush the buffered
partial line, then return the filtered view. -/
def getFilteredOutput (st : FormatterState) : FormatterState × List FormattedOutput :=
  let st' :=
    if st.incompleteLineBuffer.isEmpty then st
    else { processLine st st.incompleteLineBuffer with incompleteLineBuffer := [] }
  (st', filterMessagesForDisplay st'.allMessages)

/-- Feed a sequence of chunks through `processChunk`. -/
def runChunks (st : FormatterState) (chunks : List (List Char)) : FormatterState :=
  chunks.foldl (fun s c => (processChunk s c).1) st

/-- Decode a chunk sequence progressively and flush: the final formatter
state and the final filtered output. -/
def runFormatter (chunks : List (List Char)) : FormatterState × List FormattedOutput :=
  getFilteredOutput (runChunks initialFormatterState chunks)

/-- `BeadsStatus` from the beads types. -/
inductive BeadsStatus where
  | «open» : BeadsStatus
  | in_progress : BeadsStatus
  | closed : BeadsStatus
deriving DecidableEq, Repr

/-- `BeadsIssueType` from the beads types. -/
inductive BeadsIssueType where
  | task : BeadsIssueType
  | bug : BeadsIssueType
  | feature : BeadsIssueType
  | epic : BeadsIssueType
deriving DecidableEq, Repr

/-- `BeadsIssue` from the beads types. -/
structure BeadsIssue where
  id : String
  title : String
  type : BeadsIssueType
  status : BeadsStatus
  priority : Nat
  description : String
  blockedBy : List String
  blocks : List String
  parent : Option String
  labels : List String
deriving DecidableEq, Repr

/-- The readiness filter of `findNextReadyTask`:
`task.status !== 'closed' && task.blockedBy.length === 0`. -/
def isReadyTask (t : BeadsIssue) : Bool :=
  decide (t.status ≠ BeadsStatus.closed) && t.blockedBy.isEmpty

/-- Stable insertion by ascending priority: the inserted task goes before
the first task of strictly greater or equal position order — i.e. before
the first task it compares `≤` to — so equal priorities keep their
relative order, as the stable `Array#sort` of the source. -/
def insertByPriority (t : BeadsIssue) : List BeadsIssue → List BeadsIssue
  | [] => [t]
  | u :: us =>
    if t.priority ≤ u.priority then t :: u :: us
    else u :: insertByPriority t us

/-- Stable sort by ascending priority, modelling
`.sort((a, b) => a.priority - b.priority)`. -/
def sortByPriority : List BeadsIssue → List BeadsIssue
  | [] => []
  | t :: ts => insertByPriority t (sortByPriority ts)

/-- `findNextReadyTask` from the iteration executor: filter to ready tasks,
stable-sort ascending by priority, take the first. -/
def findNextReadyTask (tasks : List BeadsIssue) : Option BeadsIssue :=
  (sortByPriority (tasks.filter isReadyTask)).head?

/-- The loop of `isEpicComplete` on a successful `getEpicTasks` snapshot:
complete when no task is both unclosed and unblocked. -/
def isEpicCompleteTasks (tasks : List BeadsIssue) : Bool :=
  tasks.all fun t => !(decide (t.status ≠ BeadsStatus.closed) && t.blockedBy.isEmpty)

/-- `isEpicComplete` from the iteration executor, as a function of the
`getEpicTasks` query result: a failed query counts as not complete, an
empty snapshot as complete. -/
def isEpicComplete (tasksResult : Except String (List BeadsIssue)) : Bool :=
  match tasksResult with
  | Except.error _ => false
  | Except.ok tasks => if tasks.isEmpty then true else isEpicCompleteTasks tasks

/-- `ClaudeExecutionError.type` from the claude executor. -/
inductive ClaudeErrorType where
  | spawn_failed : ClaudeErrorType
  | process_error : ClaudeErrorType
  | aborted : ClaudeErrorType
deriving DecidableEq, Repr

/-- `ClaudeExecutionError` from the claude executor. -/
structure ClaudeExecutionError where
  type : ClaudeErrorType
  message : String
  exitCode : Option Int
deriving DecidableEq, Repr

/-- `ClaudeExecutionResult` from the claude executor. -/
inductive ClaudeExecutionResult where
  | success (exitCode : Int) : ClaudeExecutionResult
  | failure (error : ClaudeExecutionError) : ClaudeExecutionResult
deriving DecidableEq, Repr

/-- What one invocation of the agent process observably did, in the order
`executeClaudeCommand` reacts to it: whether `spawn` threw, whether an
abort was already requested when the process started, whether an `error`
event fired, whether an abort was requested while the process ran
(`signal.aborted` at exit time), the termination signal and exit code, and
the accumulated stderr. -/
structure ExecObservation where
  spawnThrew : Option String
  signalPresent : Bool
  alreadyAborted : Bool
  errorEvent : Option String
  abortedDuringRun : Bool
  exitSignal : Option String
  exitCode : Option Int
  stderrOutput : String
deriving DecidableEq, Repr

/-- `executeClaudeCommand` from the claude executor: classification of the
process outcome.  `signal.aborted` is checked before the kill-signal and
exit-code checks, so a requested abort is reported as the distinguished
`aborted` kind. -/
def executeClaudeCommand (obs : ExecObservation) : ClaudeExecutionResult :=
  match obs.spawnThrew with
  | some m =>
    ClaudeExecutionResult.failure
      ⟨ClaudeErrorType.spawn_failed, "Failed to spawn Claude process: " ++ m, none⟩
  | none =>
    if obs.signalPresent && obs.alreadyAborted then
      ClaudeExecutionResult.failure ⟨ClaudeErrorType.aborted, "Execution was aborted", none⟩
    else
      match obs.errorEvent with
      | some m =>
        ClaudeExecutionResult.failure
          ⟨ClaudeErrorType.spawn_failed, "Claude process error: " ++ m, none⟩
      | none =>
        if obs.signalPresent && obs.abortedDuringRun then
          ClaudeExecutionResult.failure ⟨ClaudeErrorType.aborted, "Execution was aborted", none⟩
        else
          match obs.exitSignal with
          | some sig =>
            ClaudeExecutionResult.failure
              ⟨ClaudeErrorType.process_error, "Claude process was killed by signal: " ++ sig, none⟩
          | none =>
            let exitCode := obs.exitCode.getD 0
            if exitCode ≠ 0 then
              ClaudeExecutionResult.failure
                ⟨ClaudeErrorType.process_error,
                  (if obs.stderrOutput ≠ "" then obs.stderrOutput
                   else "Claude process exited with code " ++ toString exitCode),
                  some exitCode⟩
            else ClaudeExecutionResult.success exitCode

/-- Reasons of the terminal `complete` event of the iteration executor. -/
inductive CompleteReason where
  | finished : CompleteReason
  | all_passed : CompleteReason
  | all_closed : CompleteReason
  | no_ready_tasks : CompleteReason
  | stopped : CompleteReason
  | error : CompleteReason
  | epic_complete : CompleteReason
deriving DecidableEq, Repr

/-- Events emitted by the iteration executor (beads workflow). -/
inductive Event where
  | iterationStart (iteration : Nat) (totalIterations : Nat) : Event
  | taskStart (task : BeadsIssue) : Event
  | output (data : List FormattedOutput) : Event
  | taskComplete (taskId : String) (success : Bool) : Event
  | noReadyTasks : Event
  | epicComplete (epicId : String) : Event
  | iterationComplete (iteration : Nat) : Event
  | complete (reason : CompleteReason) : Event
  | error (message : String) : Event
deriving DecidableEq, Repr

/-- One step of the orchestrator's observable behaviour: an emitted event
or a side-effecting `runBeadsCommand` invocation. -/
inductive TraceItem where
  | emit (e : Event) : TraceItem
  | beadsCall (args : List String) : TraceItem
deriving DecidableEq, Repr

/-- The environment of one iteration: the abort flag at the top of the
loop, the `getReadyTasks` result, the `getEpicTasks` result backing the
(at most one) `isEpicComplete` call of the iteration, the stdout chunks of
the agent process, the observation classifying its outcome, and the
graceful-stop flag at the end of the iteration. -/
structure IterEnvStep where
  abortedAtStart : Bool
  readyResult : Except String (List BeadsIssue)
  epicTasksResult : Except String (List BeadsIssue)
  chunks : List (List Char)
  obs : ExecObservation
  stopAfter : Bool

/-- The `output` events emitted while streaming the process's chunks
through the per-iteration stream formatter (`onOutput` emits only
non-empty filtered batches). -/
def outputTraceGo : FormatterState → List (List Char) → List TraceItem
  | _, [] => []
  | st, c :: cs =>
    let pr := processChunk st c
    (if pr.2.isEmpty then [] else [TraceItem.emit (Event.output pr.2)]) ++ outputTraceGo pr.1 cs
/-- Output events of a whole iteration, from a fresh formatter. -/
def outputTrace (chunks : List (List Char)) : List TraceItem :=
  outputTraceGo initialFormatterState chunks

/-- The iteration loop of `runIterations` (beads workflow with an epic id):
iteration `i` of `total`, with `rem` iterations left to run.  Returns the
trace of emitted events and tracker calls. -/
def runIterationsFrom (env : Nat → IterEnvStep) (epicId : String) (total : Nat) :
    Nat → Nat → List TraceItem
  | _, 0 => [TraceItem.emit (Event.complete CompleteReason.finished)]
  | i, rem + 1 =>
    let e := env i
    if e.abortedAtStart then [TraceItem.emit (Event.complete CompleteReason.stopped)]
    else
      TraceItem.emit (Event.iterationStart i total) ::
      match e.readyResult with
      | Except.error msg =>
        [TraceItem.emit (Event.error msg), TraceItem.emit (Event.complete CompleteReason.error)]
      | Except.ok readyTasks =>
        if readyTasks.isEmpty then
          TraceItem.emit Event.noReadyTasks ::
          (if isEpicComplete e.epicTasksResult then
            [TraceItem.beadsCall ["close", epicId],
             TraceItem.emit (Event.epicComplete epicId),
             TraceItem.emit (Event.complete CompleteReason.epic_complete)]
          else [TraceItem.emit (Event.complete CompleteReason.no_ready_tasks)])
        else
          match findNextReadyTask readyTasks with
          | none =>
            [TraceItem.emit Event.noReadyTasks,
             TraceItem.emit (Event.complete CompleteReason.no_ready_tasks)]
          | some nextTask =>
            let post : List TraceItem :=
              TraceItem.emit (Event.iterationComplete i) ::
              (if isEpicComplete e.epicTasksResult then
                [TraceItem.beadsCall ["close", epicId],
                 TraceItem.emit (Event.epicComplete epicId),
                 TraceItem.emit (Event.complete CompleteReason.epic_complete)]
              else if e.stopAfter then
                [TraceItem.emit (Event.complete CompleteReason.stopped)]
              else runIterationsFrom env epicId total (i + 1) rem)
            TraceItem.emit (Event.taskStart nextTask) ::
            outputTrace e.chunks ++
            (match executeClaudeCommand e.obs with
             | ClaudeExecutionResult.failure err =>
               if err.type = ClaudeErrorType.aborted then
                 [TraceItem.emit (Event.taskComplete nextTask.id false),
                  TraceItem.emit (Event.complete CompleteReason.stopped)]
               else
                 TraceItem.emit (Event.error err.message) ::
                 TraceItem.beadsCall ["comments", "add", nextTask.id,
                   "Iteration failed: " ++ err.message] ::
                 TraceItem.emit (Event.taskComplete nextTask.id false) :: post
             | ClaudeExecutionResult.success _ =>
               TraceItem.emit (Event.taskComplete nextTask.id true) :: post)

/-- `runIterations` (beads workflow): run up to `iterations` iterations
starting from iteration 1. -/
def runIterations (env : Nat → IterEnvStep) (epicId : String) (iterations : Nat) :
    List TraceItem :=
  runIterationsFrom env epicId iterations 1 iterations

/-- Spec-side description of the display filter (§4.1 of the spec): keep
exactly the messages that are assistant messages, result messages, or have
index greater than `k`, in their original order. -/
def specFilterForDisplay (messages : List FormattedOutput) (k : Nat) : List FormattedOutput :=
  (messages.enum.filter fun p =>
    decide (p.2.source = FormattedOutputSource.assistant ∨
      p.2.source = FormattedOutputSource.result ∨ k < p.1)).map Prod.snd

/-- Spec-side description of next-task selection (§4.2 of the spec): the
first ready task whose priority is minimal among the ready tasks. -/
def specNextReady (tasks : List BeadsIssue) : Option BeadsIssue :=
  let ready := tasks.filter isReadyTask
  ready.find? fun t => ready.all fun u => decide (t.priority ≤ u.priority)

/-- Task fixture for the concrete examples of the spec. -/
def mkTask (id : String) (status : BeadsStatus) (priority : Nat)
    (blockedBy : List String) : BeadsIssue :=
  ⟨id, "", BeadsIssueType.task, status, priority, "", blockedBy, [], none, []⟩

lemma length_insertByPriority (t : BeadsIssue) (l : List BeadsIssue) :
    (insertByPriority t l).length = l.length + 1 := by
  induction l with
  | nil => rfl
  | cons u us ih =>
    simp only [insertByPriority]
    split <;> simp [ih]

lemma sortByPriority_eq_nil_iff (l : List BeadsIssue) :
    sortByPriority l = [] ↔ l = [] := by
  cases l with
  | nil => simp [sortByPriority]
  | cons t ts =>
    simp only [sortByPriority]
    constructor
    · intro h
      have := congrArg List.length h
      simp [length_insertByPriority] at this
    · intro h
      cases h

lemma find?_restrict {p q : BeadsIssue → Bool} {l : List BeadsIssue} {m : BeadsIssue}
    (himp : ∀ t, p t = true → q t = true) (hq : l.find? q = some m) (hm : p m = true) :
    l.find? p = some m := by
  induction l with
  | nil => simp at hq
  | cons h rest ih =>
    by_cases hqh : q h = true
    · rw [List.find?_cons_of_pos _ hqh] at hq
      injection hq with hq
      subst hq
      rw [List.find?_cons_of_pos _ hm]
    · have hph : ¬ p h = true := fun hp => hqh (himp h hp)
      rw [List.find?_cons_of_neg _ hqh] at hq
      rw [List.find?_cons_of_neg _ hph]
      exact ih hq

lemma find?_cons_pos {α : Type _} (p : α → Bool) (a : α) (l : List α) (h : p a = true) :
    (a :: l).find? p = some a :=
  List.find?_cons_of_pos _ h

lemma find?_cons_neg {α : Type _} (p : α → Bool) (a : α) (l : List α) (h : p a = false) :
    (a :: l).find? p = l.find? p :=
  List.find?_cons_of_neg _ (by simp [h])

lemma head_sortByPriority (l : List BeadsIssue) :
    (sortByPriority l).head? = l.find? fun t => l.all fun u => decide (t.priority ≤ u.priority) := by
  induction l with
  | nil => rfl
  | cons x xs ih =>
    simp only [sortByPriority]
    rcases hs : sortByPriority xs with _ | ⟨m, rest⟩
    · have hxs : xs = [] := (sortByPriority_eq_nil_iff xs).mp hs
      subst hxs
      simp [insertByPriority]
    · rw [hs] at ih
      simp only [List.head?_cons] at ih
      have hfind : List.find? (fun t => xs.all fun u => decide (t.priority ≤ u.priority)) xs
          = some m := ih.symm
      have hmall := List.find?_some hfind
      have hmall' : ∀ u ∈ xs, m.priority ≤ u.priority := by
        intro u hu
        have hball : (xs.all fun u => decide (m.priority ≤ u.priority)) = true := hmall
        exact of_decide_eq_true (List.all_eq_true.mp hball u hu)
    -- the head of the insertion is x when x undercuts the current minimum
    -- m, and stays m otherwise
      by_cases hx : x.priority ≤ m.priority
      · have hpx : (fun t => (x :: xs).all fun u => decide (t.priority ≤ u.priority)) x = true := by
          show ((x :: xs).all fun u => decide (x.priority ≤ u.priority)) = true
          rw [List.all_eq_true]
          intro u hu
          rcases List.mem_cons.mp hu with h | h
          · subst h; exact decide_eq_true le_rfl
          · exact decide_eq_true (le_trans hx (hmall' u h))
        rw [find?_cons_pos (fun t => (x :: xs).all fun u => decide (t.priority ≤ u.priority)) x xs hpx]
        simp [insertByPriority, hx]
      · have hmem : m ∈ xs := List.mem_of_find?_eq_some hfind
        have hpx : (fun t => (x :: xs).all fun u => decide (t.priority ≤ u.priority)) x
            = false := by
          show ((x :: xs).all fun u => decide (x.priority ≤ u.priority)) = false
          rw [Bool.eq_false_iff]
          intro hall
          exact hx (of_decide_eq_true
            (List.all_eq_true.mp hall m (List.mem_cons_of_mem _ hmem)))
        rw [find?_cons_neg (fun t => (x :: xs).all fun u => decide (t.priority ≤ u.priority)) x xs hpx]
        have hrestrict : List.find?
            (fun t => (x :: xs).all fun u => decide (t.priority ≤ u.priority)) xs = some m := by
          refine find?_restrict ?_ hfind ?_
          · intro t ht
            show (xs.all fun u => decide (t.priority ≤ u.priority)) = true
            have ht' : ((x :: xs).all fun u => decide (t.priority ≤ u.priority)) = true := ht
            rw [List.all_eq_true] at ht' ⊢
            intro u hu
            exact ht' u (List.mem_cons_of_mem _ hu)
          · show ((x :: xs).all fun u => decide (m.priority ≤ u.priority)) = true
            rw [List.all_eq_true]
            intro u hu
            rcases List.mem_cons.mp hu with h | h
            · subst h; exact decide_eq_true (le_of_not_le hx)
            · exact decide_eq_true (hmall' u h)
        rw [hrestrict]
        simp [insertByPriority, hx]

/-- Claim C5: `findNextReadyTask` returns the head of the stable
priority-sort of the ready tasks — equivalently the first ready task of
minimal priority among the ready tasks — and `none` exactly when no task
is ready; on the spec's example `T1{p2,open,[]}`, `T2{p0,open,[T3]}`,
`T3{p1,closed,[]}` it returns `T1`. -/
theorem c5_next_ready_selection :
    (∀ tasks : List BeadsIssue, findNextReadyTask tasks = specNextReady tasks) ∧
    (∀ tasks : List BeadsIssue,
      (findNextReadyTask tasks = none ↔ ∀ t ∈ tasks, isReadyTask t = false)) ∧
    findNextReadyTask
      [mkTask "T1" BeadsStatus.«open» 2 [],
       mkTask "T2" BeadsStatus.«open» 0 ["T3"],
       mkTask "T3" BeadsStatus.closed 1 []] =
      some (mkTask "T1" BeadsStatus.«open» 2 []) := by
  refine ⟨?_, ?_, by decide⟩
  · intro tasks
    exact head_sortByPriority (tasks.filter isReadyTask)
  · intro tasks
    rw [findNextReadyTask, List.head?_eq_none_iff, sortByPriority_eq_nil_iff,
      List.filter_eq_nil_iff]
    constructor
    · intro h t ht
      exact Bool.eq_false_iff.mpr (h t ht)
    · intro h t ht
      rw [h t ht]
      exact Bool.false_ne_true

lemma isEpicCompleteTasks_iff (tasks : List BeadsIssue) :
    isEpicCompleteTasks tasks = true ↔
      ∀ t ∈ tasks, t.status = BeadsStatus.closed ∨ t.blockedBy ≠ [] := by
  rw [isEpicCompleteTasks, List.all_eq_true]
  constructor
  · intro h t ht
    have := h t ht
    by_cases hs : t.status = BeadsStatus.closed
    · exact Or.inl hs
    · right
      simp [hs, List.isEmpty_iff] at this
      exact this
  · intro h t ht
    rcases h t ht with hs | hb
    · simp [hs]
    · simp [List.isEmpty_iff, hb]

lemma isEpicComplete_ok_iff (tasks : List BeadsIssue) :
    isEpicComplete (Except.ok tasks) = true ↔
      tasks = [] ∨ ∀ t ∈ tasks, t.status = BeadsStatus.closed ∨ t.blockedBy ≠ [] := by
  rcases tasks with _ | ⟨t, ts⟩
  · simp [isEpicComplete]
  · rw [show isEpicComplete (Except.ok (t :: ts)) = isEpicCompleteTasks (t :: ts) from rfl,
      isEpicCompleteTasks_iff]
    simp

/-- Claim C6: the batch-completeness judgement on a task snapshot holds
exactly when the snapshot is empty or every task is closed or blocked, so
a non-empty snapshot with a ready task is never complete; concretely it
accepts `[]` and a single closed task, and rejects a single open
unblocked task. -/
theorem c6_batch_complete :
    (∀ tasks : List BeadsIssue,
      (isEpicComplete (Except.ok tasks) = true ↔
        tasks = [] ∨ ∀ t ∈ tasks, t.status = BeadsStatus.closed ∨ t.blockedBy ≠ [])) ∧
    (∀ tasks : List BeadsIssue, ∀ t ∈ tasks, isReadyTask t = true →
      isEpicComplete (Except.ok tasks) = false) ∧
    isEpicComplete (Except.ok []) = true ∧
    isEpicComplete (Except.ok [mkTask "a" BeadsStatus.closed 0 []]) = true ∧
    isEpicComplete (Except.ok [mkTask "a" BeadsStatus.«open» 0 []]) = false := by
  refine ⟨isEpicComplete_ok_iff, ?_, by decide, by decide, by decide⟩
  intro tasks t ht hready
  by_contra h
  have h' : isEpicComplete (Except.ok tasks) = true := by
    cases hv : isEpicComplete (Except.ok tasks)
    · exact absurd hv h
    · rfl
  rcases (isEpicComplete_ok_iff tasks).mp h' with he | hall
  · subst he; cases ht
  · rcases hall t ht with hs | hb
    · rw [isReadyTask, hs] at hready
      simp at hready
    · have : t.blockedBy.isEmpty = true := by
        rw [isReadyTask] at hready
        exact (Bool.and_eq_true _ _ |>.mp hready).2
      exact hb (List.isEmpty_iff.mp this)

/-- Witness for C6 at a concrete snapshot with a ready task. -/
theorem c6_batch_complete_witness :
    isEpicComplete (Except.ok [mkTask "w" BeadsStatus.«open» 1 []]) = false :=
  c6_batch_complete.2.1 [mkTask "w" BeadsStatus.«open» 1 []]
    (mkTask "w" BeadsStatus.«open» 1 []) (List.mem_singleton.mpr rfl) (by decide)

/-- Witness for C5 at a concrete task list. -/
theorem c5_next_ready_selection_witness :
    findNextReadyTask [mkTask "x" BeadsStatus.closed 0 []] = none :=
  (c5_next_ready_selection.2.1 [mkTask "x" BeadsStatus.closed 0 []]).mpr
    (by intro t ht; rw [List.mem_singleton.mp ht]; decide)

/-- Predicate "assistant or result", the unconditional keep-set of the
display filter. -/
def pAR (m : FormattedOutput) : Bool :=
  decide (m.source = FormattedOutputSource.assistant ∨
    m.source = FormattedOutputSource.result)

/-- Predicate "assistant message". -/
def isAssistantMsg (m : FormattedOutput) : Bool :=
  decide (m.source = FormattedOutputSource.assistant)

lemma lastAssistantIndex_eq_none_iff (msgs : List FormattedOutput) :
    lastAssistantIndex msgs = none ↔
      ∀ m ∈ msgs, m.source ≠ FormattedOutputSource.assistant := by
  induction msgs with
  | nil => simp [lastAssistantIndex]
  | cons m ms ih =>
    simp only [lastAssistantIndex]
    rcases h : lastAssistantIndex ms with _ | k
    · by_cases hm : m.source = FormattedOutputSource.assistant
      · simp only [hm, if_pos rfl]
        constructor
        · intro hc; cases hc
        · intro hall
          exact absurd hm (hall m (List.mem_cons_self m ms))
      · simp only [if_neg hm]
        rw [h] at ih
        constructor
        · intro _ x hx
          rcases List.mem_cons.mp hx with hx | hx
          · subst hx; exact hm
          · exact (ih.mp rfl) x hx
        · intro _; trivial
    · constructor
      · intro hc; cases hc
      · intro hall
        have : lastAssistantIndex ms = none := by
          rw [ih]
          intro x hx
          exact hall x (List.mem_cons_of_mem _ hx)
        rw [this] at h; cases h

lemma lastAssistantIndex_spec (msgs : List FormattedOutput) (k : Nat)
    (mk : FormattedOutput) (hget : msgs.get? k = some mk)
    (hass : mk.source = FormattedOutputSource.assistant)
    (hafter : ∀ j m, k < j → msgs.get? j = some m →
      m.source ≠ FormattedOutputSource.assistant) :
    lastAssistantIndex msgs = some k := by
  induction msgs generalizing k with
  | nil => cases hget
  | cons m ms ih =>
    cases k with
    | zero =>
      simp only [List.get?_cons_zero] at hget
      injection hget with hget
      subst hget
      have hnone : lastAssistantIndex ms = none := by
        rw [lastAssistantIndex_eq_none_iff]
        intro x hx
        rcases List.mem_iff_get?.mp hx with ⟨j, hj⟩
        exact hafter (j + 1) x (Nat.succ_pos j) (by simpa using hj)
      simp [lastAssistantIndex, hnone, hass]
    | succ k' =>
      simp only [List.get?_cons_succ] at hget
      have hafter' : ∀ j m', k' < j → ms.get? j = some m' →
          m'.source ≠ FormattedOutputSource.assistant := by
        intro j m' hj hget'
        exact hafter (j + 1) m' (Nat.succ_lt_succ hj) (by simpa using hget')
      have := ih k' hget hafter'
      simp [lastAssistantIndex, this]

lemma keepForDisplay_enumFrom (k : Nat) (msgs : List FormattedOutput) :
    ∀ i, keepForDisplay k i msgs =
      ((msgs.enumFrom i).filter fun p =>
        decide (p.2.source = FormattedOutputSource.assistant ∨
          p.2.source = FormattedOutputSource.result ∨ k < p.1)).map Prod.snd := by
  induction msgs with
  | nil => intro i; rfl
  | cons m ms ih =>
    intro i
    simp only [keepForDisplay, List.enumFrom_cons]
    by_cases h : m.source = FormattedOutputSource.assistant ∨
        m.source = FormattedOutputSource.result ∨ k < i
    · rw [if_pos h, List.filter_cons, if_pos (by simpa using h)]
      simp only [List.map_cons, ih (i + 1)]
    · rw [if_neg h, List.filter_cons, if_neg (by simpa using h)]
      exact ih (i + 1)

lemma keepForDisplay_take_drop (k : Nat) (msgs : List FormattedOutput) :
    ∀ i, keepForDisplay k i msgs =
      (msgs.take (k + 1 - i)).filter pAR ++ msgs.drop (k + 1 - i) := by
  induction msgs with
  | nil => intro i; simp [keepForDisplay]
  | cons m ms ih =>
    intro i
    by_cases hi : k < i
    · have hz : k + 1 - i = 0 := by omega
      have hcond : m.source = FormattedOutputSource.assistant ∨
          m.source = FormattedOutputSource.result ∨ k < i := Or.inr (Or.inr hi)
      simp only [keepForDisplay, if_pos hcond, hz, List.take_zero, List.filter_nil,
        List.drop_zero, List.nil_append, List.cons.injEq, true_and]
      have hz' : k + 1 - (i + 1) = 0 := by omega
      rw [ih (i + 1), hz']
      simp
    · have hs : k + 1 - i = (k - i) + 1 := by omega
      have hs' : k + 1 - (i + 1) = k - i := by omega
      simp only [keepForDisplay, hs, List.take_succ_cons, List.drop_succ_cons,
        List.filter_cons]
      by_cases hm : m.source = FormattedOutputSource.assistant ∨
          m.source = FormattedOutputSource.result
      · have hcond : m.source = FormattedOutputSource.assistant ∨
            m.source = FormattedOutputSource.result ∨ k < i := by tauto
        have hp : pAR m = true := decide_eq_true hm
        rw [if_pos hcond, if_pos hp, ih (i + 1), hs', List.cons_append]
      · have hcond : ¬(m.source = FormattedOutputSource.assistant ∨
            m.source = FormattedOutputSource.result ∨ k < i) := by tauto
        have hp : pAR m = false := decide_eq_false hm
        rw [if_neg hcond, hp, ih (i + 1), hs']
        simp

lemma keepForDisplay_sublist (k : Nat) (msgs : List FormattedOutput) :
    ∀ i, (keepForDisplay k i msgs).Sublist msgs := by
  induction msgs with
  | nil => intro i; simp [keepForDisplay]
  | cons m ms ih =>
    intro i
    simp only [keepForDisplay]
    split
    · exact List.Sublist.cons₂ m (ih (i + 1))
    · exact List.Sublist.cons m (ih (i + 1))

lemma keepForDisplay_filter_assistant (k : Nat) (msgs : List FormattedOutput) :
    ∀ i, (keepForDisplay k i msgs).filter isAssistantMsg = msgs.filter isAssistantMsg := by
  induction msgs with
  | nil => intro i; rfl
  | cons m ms ih =>
    intro i
    simp only [keepForDisplay]
    by_cases hcond : m.source = FormattedOutputSource.assistant ∨
        m.source = FormattedOutputSource.result ∨ k < i
    · rw [if_pos hcond]
      simp only [List.filter_cons, ih (i + 1)]
    · rw [if_neg hcond]
      have hm : isAssistantMsg m = false := by
        apply decide_eq_false
        intro h
        exact hcond (Or.inl h)
      simp only [List.filter_cons, hm, ih (i + 1)]
      simp

lemma filter_pAR_idem (l : List FormattedOutput) :
    (l.filter pAR).filter pAR = l.filter pAR := by
  induction l with
  | nil => rfl
  | cons m ms ih =>
    by_cases h : pAR m = true
    · simp [List.filter_cons, h, ih]
    · have h' : pAR m = false := Bool.eq_false_iff.mpr h
      simp [List.filter_cons, h', ih]

lemma lastAssistantIndex_append_no_assistant (A B : List FormattedOutput)
    (hB : ∀ m ∈ B, m.source ≠ FormattedOutputSource.assistant) :
    lastAssistantIndex (A ++ B) = lastAssistantIndex A := by
  induction A with
  | nil =>
    simp only [List.nil_append, lastAssistantIndex]
    exact (lastAssistantIndex_eq_none_iff B).mpr hB
  | cons m ms ih =>
    simp only [List.cons_append, lastAssistantIndex, List.append_eq, ih]

lemma lastAssistantIndex_append_assistant (l : List FormattedOutput)
    (a : FormattedOutput) (ha : a.source = FormattedOutputSource.assistant) :
    lastAssistantIndex (l ++ [a]) = some l.length := by
  induction l with
  | nil => simp [lastAssistantIndex, ha]
  | cons m ms ih =>
    simp only [List.cons_append, lastAssistantIndex, List.append_eq, ih, List.length_cons]

/-- Message fixtures for the spec's display-filter example. -/
def msgA1 : FormattedOutput := ⟨FormattedOutputSource.assistant, "A1".data⟩

/-- Second fixture message. -/
def msgU1 : FormattedOutput := ⟨FormattedOutputSource.user, "U1".data⟩

/-- Third fixture message. -/
def msgA2 : FormattedOutput := ⟨FormattedOutputSource.assistant, "A2".data⟩

/-- Fourth fixture message. -/
def msgU2 : FormattedOutput := ⟨FormattedOutputSource.user, "U2".data⟩

/-- Claim C3: with no assistant message `filterMessagesForDisplay` is the
identity; otherwise, with `k` the index of the last assistant message, it
returns exactly the messages that are assistant messages, result messages,
or at an index greater than `k`, in order; and on
`[A1(assistant), U1(user), A2(assistant), U2(user)]` it returns
`[A1, A2, U2]`. -/
theorem c3_display_filter_rule :
    (∀ msgs : List FormattedOutput,
      (∀ m ∈ msgs, m.source ≠ FormattedOutputSource.assistant) →
        filterMessagesForDisplay msgs = msgs) ∧
    (∀ (msgs : List FormattedOutput) (k : Nat) (mk : FormattedOutput),
      msgs.get? k = some mk →
      mk.source = FormattedOutputSource.assistant →
      (∀ j m, k < j → msgs.get? j = some m →
        m.source ≠ FormattedOutputSource.assistant) →
      filterMessagesForDisplay msgs = specFilterForDisplay msgs k) ∧
    filterMessagesForDisplay [msgA1, msgU1, msgA2, msgU2] = [msgA1, msgA2, msgU2] := by
  refine ⟨?_, ?_, by decide⟩
  · intro msgs h
    rw [filterMessagesForDisplay, (lastAssistantIndex_eq_none_iff msgs).mpr h]
  · intro msgs k mk hget hass hafter
    rw [filterMessagesForDisplay, lastAssistantIndex_spec msgs k mk hget hass hafter,
      specFilterForDisplay, List.enum]
    exact keepForDisplay_enumFrom k msgs 0

/-- Witness for C3 on the concrete four-message example. -/
theorem c3_display_filter_rule_witness :
    filterMessagesForDisplay [msgA1, msgU1, msgA2, msgU2] =
      specFilterForDisplay [msgA1, msgU1, msgA2, msgU2] 2 :=
  c3_display_filter_rule.2.1 [msgA1, msgU1, msgA2, msgU2] 2 msgA2 (by decide) (by decide)
    (by
      intro j m hj hget
      rcases j with _ | _ | _ | _ | j2
      · omega
      · omega
      · omega
      · injection hget with h; subst h; decide
      · simp at hget)

/-- Claim C10: the display filter returns a sublist of its input, keeps
every assistant message (with order and multiplicity), and is idempotent. -/
theorem c10_display_filter_idempotent (msgs : List FormattedOutput) :
    (filterMessagesForDisplay msgs).Sublist msgs ∧
    (filterMessagesForDisplay msgs).filter isAssistantMsg = msgs.filter isAssistantMsg ∧
    filterMessagesForDisplay (filterMessagesForDisplay msgs) = filterMessagesForDisplay msgs := by
  rcases hl : lastAssistantIndex msgs with _ | k
  · rw [filterMessagesForDisplay, hl]
    exact ⟨List.Sublist.refl msgs, rfl, by rw [filterMessagesForDisplay, hl]⟩
  · have hkeep : filterMessagesForDisplay msgs = keepForDisplay k 0 msgs := by
      rw [filterMessagesForDisplay, hl]
    refine ⟨hkeep ▸ keepForDisplay_sublist k msgs 0,
      hkeep ▸ keepForDisplay_filter_assistant k msgs 0, ?_⟩
    -- facts about the last assistant position
    obtain ⟨mk, hget, hass, hafter⟩ : ∃ mk, msgs.get? k = some mk ∧
        mk.source = FormattedOutputSource.assistant ∧
        ∀ j m, k < j → msgs.get? j = some m →
          m.source ≠ FormattedOutputSource.assistant := by
      clear hkeep
      induction msgs generalizing k with
      | nil => cases hl
      | cons m ms ih =>
        rcases h : lastAssistantIndex ms with _ | k'
        · rw [lastAssistantIndex, h] at hl
          by_cases hm : m.source = FormattedOutputSource.assistant
          · rw [if_pos hm] at hl
            injection hl with hl
            subst hl
            refine ⟨m, rfl, hm, ?_⟩
            intro j x hj hgx
            cases j with
            | zero => cases hj
            | succ j' =>
              simp only [List.get?_cons_succ] at hgx
              exact (lastAssistantIndex_eq_none_iff ms).mp h x
                (List.mem_iff_get?.mpr ⟨j', hgx⟩)
          · rw [if_neg hm] at hl; cases hl
        · rw [lastAssistantIndex, h] at hl
          injection hl with hl
          subst hl
          obtain ⟨mk, hget, hass, hafter⟩ := ih k' h
          refine ⟨mk, by simpa using hget, hass, ?_⟩
          intro j x hj hgx
          cases j with
          | zero => cases hj
          | succ j' =>
            simp only [List.get?_cons_succ] at hgx
            exact hafter j' x (Nat.lt_of_succ_lt_succ hj) hgx
    -- the closed form of the filtered output
    have hclosed : keepForDisplay k 0 msgs =
        (msgs.take (k + 1)).filter pAR ++ msgs.drop (k + 1) := by
      have := keepForDisplay_take_drop k msgs 0
      simpa using this
    have htake : msgs.take (k + 1) = msgs.take k ++ [mk] := by
      rw [List.take_succ]
      have hg : msgs[k]? = some mk := by rw [← List.get?_eq_getElem?]; exact hget
      rw [hg]
      rfl
    have hA : (msgs.take (k + 1)).filter pAR = (msgs.take k).filter pAR ++ [mk] := by
      rw [htake, List.filter_append]
      have : pAR mk = true := decide_eq_true (Or.inl hass)
      simp [List.filter_cons, this]
    have hBnone : ∀ m ∈ msgs.drop (k + 1), m.source ≠ FormattedOutputSource.assistant := by
      intro m hm
      rcases List.mem_iff_get?.mp hm with ⟨j, hj⟩
      rw [List.get?_drop] at hj
      exact hafter (k + 1 + j) m (by omega) hj
    have hlast : lastAssistantIndex (keepForDisplay k 0 msgs) =
        some ((msgs.take k).filter pAR).length := by
      rw [hclosed, lastAssistantIndex_append_no_assistant _ _ hBnone, hA,
        lastAssistantIndex_append_assistant _ _ hass]
    set k' := ((msgs.take k).filter pAR).length with hk'
    have hlenA : ((msgs.take (k + 1)).filter pAR).length = k' + 1 := by
      rw [hA, List.length_append, List.length_singleton]
    rw [hkeep, filterMessagesForDisplay, hlast, hclosed]
    show keepForDisplay k' 0 ((msgs.take (k + 1)).filter pAR ++ msgs.drop (k + 1)) =
      (msgs.take (k + 1)).filter pAR ++ msgs.drop (k + 1)
    rw [keepForDisplay_take_drop k' _ 0]
    simp only [Nat.sub_zero]
    have htk : ((msgs.take (k + 1)).filter pAR ++ msgs.drop (k + 1)).take (k' + 1) =
        (msgs.take (k + 1)).filter pAR := by
      rw [← hlenA, List.take_left]
    have hdk : ((msgs.take (k + 1)).filter pAR ++ msgs.drop (k + 1)).drop (k' + 1) =
        msgs.drop (k + 1) := by
      rw [← hlenA, List.drop_left]
    rw [htk, hdk, filter_pAR_idem]


/-- Claim C4: the decoder accepts a parsed object as a protocol frame only
if it satisfies its declared kind's minimal shape: the concrete line
missing `message.content` decodes to nothing, the well-formed assistant
line decodes to one assistant message with content `Hi`, and any parsed
value whose `type` is `assistant` or `user` but whose `message.content` is
not an array is invalid, so the decoder drops the line rather than
reporting an error. -/
theorem c4_schema_discrimination :
    formatStreamLineWithSource
      "\x7b\"type\":\"assistant\",\"version\":\"1.0\"\x7d".data = none ∧
    formatStreamLineWithSource
      "\x7b\"type\":\"assistant\",\"message\":\x7b\"content\":[\x7b\"type\":\"text\",\"text\":\"Hi\"\x7d]\x7d\x7d".data =
      some ⟨FormattedOutputSource.assistant, "Hi".data⟩ ∧
    (∀ (j : Json) (t : List Char),
      getProp j "type".data = some (Json.str t) →
      (t = "assistant".data ∨ t = "user".data) →
      (∀ m, getProp j "message".data = some m →
        ∀ xs, getProp m "content".data ≠ some (Json.arr xs)) →
      isValidStreamMessage j = false ∧
      (∀ line : List Char, parseJson (jsTrim line) = some j →
        formatStreamLineWithSource line = none)) := by
  refine ⟨by decide, by decide, ?_⟩
  intro j t htype hdisc hshape
  have hobj : jsObjectNonNull j = true := by
    cases j <;> first | rfl | simp [getProp] at htype
  have hca : hasContentArray j = false := by
    rw [hasContentArray]
    cases hm : getProp j "message".data with
    | none => rfl
    | some m =>
      by_cases hmo : jsObjectNonNull m = true
      · simp only [hmo, Bool.not_true, Bool.false_eq_true, if_false]
        cases hc : getProp m "content".data with
        | none => rfl
        | some c =>
          cases c with
          | arr xs => exact absurd hc (hshape m hm xs)
          | null => rfl
          | bool b => rfl
          | num q => rfl
          | str s => rfl
          | obj fs => rfl
      · have hmo' : jsObjectNonNull m = false := Bool.eq_false_iff.mpr hmo
        simp [hmo']
  have hdispatch : isValidStreamMessage j =
      (if t = "assistant".data then hasContentArray j
       else if t = "user".data then hasContentArray j
       else if t = "system".data then true
       else if t = "result".data then true
       else false) := by
    rw [isValidStreamMessage, hobj, htype]
    rfl
  have hvalid : isValidStreamMessage j = false := by
    rw [hdispatch]
    rcases hdisc with h | h
    · subst h
      rw [if_pos rfl]
      exact hca
    · subst h
      rw [if_neg (by decide), if_pos rfl]
      exact hca
  refine ⟨hvalid, ?_⟩
  intro line hparse
  cases he : (jsTrim line).isEmpty
  · simp [formatStreamLineWithSource, he, hparse, hvalid]
  · exfalso
    have hnil : jsTrim line = [] := List.isEmpty_iff.mp he
    rw [hnil] at hparse
    have hnone : parseJson ([] : List Char) = none := rfl
    rw [hnone] at hparse
    exact Option.noConfusion hparse

/-- Witness for C4's universal part at a concrete malformed user frame. -/
theorem c4_schema_discrimination_witness :
    isValidStreamMessage
      (Json.obj [("type".data, Json.str "user".data),
        ("message".data, Json.obj [("content".data, Json.str "nope".data)])]) = false :=
  (c4_schema_discrimination.2.2
    (Json.obj [("type".data, Json.str "user".data),
      ("message".data, Json.obj [("content".data, Json.str "nope".data)])])
    "user".data rfl (Or.inr rfl)
    (by
      intro m hm xs hc
      have hm' : (some (Json.obj [("content".data, Json.str "nope".data)]) : Option Json) =
          some m := hm
      injection hm' with hm2
      subst hm2
      have hc' : (some (Json.str "nope".data) : Option Json) = some (Json.arr xs) := hc
      injection hc' with hc2
      exact Json.noConfusion hc2)).1

/-- The events of a trace (tracker calls are not emitter events). -/
def eventsOf (tr : List TraceItem) : List Event :=
  tr.filterMap fun it =>
    match it with
    | TraceItem.emit e => some e
    | TraceItem.beadsCall _ => none

/-- Recognizer of the terminal `complete` event. -/
def isCompleteEvt : Event → Bool
  | Event.complete _ => true
  | _ => false

/-- Recognizer of the `iterationStart` event. -/
def isIterationStartEvt : Event → Bool
  | Event.iterationStart _ _ => true
  | _ => false

lemma outputTraceGo_events (cs : List (List Char)) :
    ∀ st, ∀ e ∈ eventsOf (outputTraceGo st cs), ∃ d, e = Event.output d := by
  induction cs with
  | nil => intro st e he; simp [outputTraceGo, eventsOf] at he
  | cons c cs ih =>
    intro st e he
    rw [outputTraceGo] at he
    rcases hp : (processChunk st c).2 with _ | ⟨m, ms⟩
    · rw [hp] at he
      simp only [List.isEmpty_nil, if_pos rfl, List.nil_append] at he
      exact ih (processChunk st c).1 e he
    · rw [hp] at he
      simp only [List.isEmpty_cons, Bool.false_eq_true, if_false, List.cons_append,
        List.nil_append] at he
      rw [eventsOf, List.filterMap_cons] at he
      simp only at he
      rcases List.mem_cons.mp he with h | h
      · exact ⟨m :: ms, h⟩
      · exact ih (processChunk st c).1 e h

/-- Claim C2: in any iteration whose ready-task query succeeds with an
empty list, the orchestrator (after announcing `noReadyTasks`) consults the
batch-completeness check; when it holds the run performs the side-effecting
`close` call and terminates as `epic_complete`, and only otherwise does it
terminate as `no_ready_tasks`. -/
theorem c2_no_ready_tasks (env : Nat → IterEnvStep) (epicId : String)
    (total i rem : Nat)
    (hab : (env i).abortedAtStart = false)
    (hready : (env i).readyResult = Except.ok []) :
    runIterationsFrom env epicId total i (rem + 1) =
      TraceItem.emit (Event.iterationStart i total) ::
      TraceItem.emit Event.noReadyTasks ::
      (if isEpicComplete (env i).epicTasksResult then
        [TraceItem.beadsCall ["close", epicId],
         TraceItem.emit (Event.epicComplete epicId),
         TraceItem.emit (Event.complete CompleteReason.epic_complete)]
      else [TraceItem.emit (Event.complete CompleteReason.no_ready_tasks)]) ∧
    (∀ ts, (env i).epicTasksResult = Except.ok ts →
      (isEpicComplete (env i).epicTasksResult = true ↔
        ts = [] ∨ ∀ t ∈ ts, t.status = BeadsStatus.closed ∨ t.blockedBy ≠ [])) := by
  constructor
  · rw [runIterationsFrom]
    simp [hab, hready]
  · intro ts hts
    rw [hts]
    exact isEpicComplete_ok_iff ts

/-- Fixture environment for the C2 witness: empty ready set, empty (hence
complete) epic snapshot. -/
def envC2 : Nat → IterEnvStep := fun _ =>
  ⟨false, Except.ok [], Except.ok [], [],
    ⟨none, false, false, none, false, none, some 0, ""⟩, false⟩

/-- Witness for C2 at a concrete environment. -/
theorem c2_no_ready_tasks_witness :
    runIterationsFrom envC2 "E" 2 1 2 =
      [TraceItem.emit (Event.iterationStart 1 2),
       TraceItem.emit Event.noReadyTasks,
       TraceItem.beadsCall ["close", "E"],
       TraceItem.emit (Event.epicComplete "E"),
       TraceItem.emit (Event.complete CompleteReason.epic_complete)] :=
  (c2_no_ready_tasks envC2 "E" 2 1 1 rfl rfl).1

lemma eventsOf_cons_emit (e : Event) (l : List TraceItem) :
    eventsOf (TraceItem.emit e :: l) = e :: eventsOf l := rfl

lemma eventsOf_cons_call (args : List String) (l : List TraceItem) :
    eventsOf (TraceItem.beadsCall args :: l) = eventsOf l := rfl

lemma eventsOf_append (l1 l2 : List TraceItem) :
    eventsOf (l1 ++ l2) = eventsOf l1 ++ eventsOf l2 :=
  List.filterMap_append l1 l2 _

lemma outputTrace_filter_iterStart (cs : List (List Char)) :
    ((eventsOf (outputTrace cs)).filter isIterationStartEvt) = [] := by
  rw [List.filter_eq_nil_iff]
  intro e he
  obtain ⟨d, hd⟩ := outputTraceGo_events cs initialFormatterState e he
  subst hd
  simp [isIterationStartEvt]

/-- Claim C7: if immediate cancellation is signaled while the agent process
runs (and the process did not fail to spawn), the outcome is classified as
the distinguished `aborted` failure kind, the iteration emits the
task-failure event and terminates the run as `stopped`, and no further
iteration starts regardless of how many iterations were requested. -/
theorem c7_immediate_cancel (env : Nat → IterEnvStep) (epicId : String)
    (total i rem : Nat) (tasks : List BeadsIssue) (nextTask : BeadsIssue)
    (hab : (env i).abortedAtStart = false)
    (hready : (env i).readyResult = Except.ok tasks)
    (hnext : findNextReadyTask tasks = some nextTask)
    (hspawn : (env i).obs.spawnThrew = none)
    (hpre : (env i).obs.alreadyAborted = false)
    (herr : (env i).obs.errorEvent = none)
    (hsig : (env i).obs.signalPresent = true)
    (habort : (env i).obs.abortedDuringRun = true) :
    executeClaudeCommand (env i).obs =
      ClaudeExecutionResult.failure
        ⟨ClaudeErrorType.aborted, "Execution was aborted", none⟩ ∧
    runIterationsFrom env epicId total i (rem + 1) =
      TraceItem.emit (Event.iterationStart i total) ::
      TraceItem.emit (Event.taskStart nextTask) ::
      outputTrace (env i).chunks ++
      [TraceItem.emit (Event.taskComplete nextTask.id false),
       TraceItem.emit (Event.complete CompleteReason.stopped)] ∧
    (eventsOf (runIterationsFrom env epicId total i (rem + 1))).filter
      isIterationStartEvt = [Event.iterationStart i total] := by
  have hne : tasks.isEmpty = false := by
    cases tasks with
    | nil => cases hnext
    | cons t ts => rfl
  have hexec : executeClaudeCommand (env i).obs =
      ClaudeExecutionResult.failure
        ⟨ClaudeErrorType.aborted, "Execution was aborted", none⟩ := by
    rw [executeClaudeCommand, hspawn, hpre, herr, hsig, habort]
    simp
  have htrace : runIterationsFrom env epicId total i (rem + 1) =
      TraceItem.emit (Event.iterationStart i total) ::
      TraceItem.emit (Event.taskStart nextTask) ::
      outputTrace (env i).chunks ++
      [TraceItem.emit (Event.taskComplete nextTask.id false),
       TraceItem.emit (Event.complete CompleteReason.stopped)] := by
    rw [runIterationsFrom]
    simp [hab, hready, hne, hnext, hexec]
  refine ⟨hexec, htrace, ?_⟩
  rw [htrace, eventsOf_append, eventsOf_cons_emit, eventsOf_cons_emit,
    List.filter_append, List.filter_cons, List.filter_cons,
    outputTrace_filter_iterStart]
  simp [isIterationStartEvt, eventsOf]

/-- Fixture task for the C7 witness. -/
def taskC7 : BeadsIssue := mkTask "t7" BeadsStatus.«open» 1 []

/-- Fixture environment for the C7 witness: one ready task, abort signaled
while the process runs. -/
def envC7 : Nat → IterEnvStep := fun _ =>
  ⟨false, Except.ok [taskC7], Except.ok [taskC7], [],
    ⟨none, true, false, none, true, none, some 0, ""⟩, false⟩

/-- Witness for C7 at a concrete environment. -/
theorem c7_immediate_cancel_witness :
    executeClaudeCommand (envC7 1).obs =
      ClaudeExecutionResult.failure
        ⟨ClaudeErrorType.aborted, "Execution was aborted", none⟩ ∧
    runIterationsFrom envC7 "E" 5 1 5 =
      TraceItem.emit (Event.iterationStart 1 5) ::
      TraceItem.emit (Event.taskStart taskC7) ::
      outputTrace (envC7 1).chunks ++
      [TraceItem.emit (Event.taskComplete taskC7.id false),
       TraceItem.emit (Event.complete CompleteReason.stopped)] ∧
    (eventsOf (runIterationsFrom envC7 "E" 5 1 5)).filter isIterationStartEvt =
      [Event.iterationStart 1 5] :=
  c7_immediate_cancel envC7 "E" 5 1 4 [taskC7] taskC7 rfl rfl (by decide)
    rfl rfl rfl rfl rfl

/-- Claim C8: in any iteration where a task was selected and the agent
process fails with a non-cancellation failure, the orchestrator emits the
error, appends a failure comment to that task through the tracker
(`comments add`), emits the task-failure event, completes the iteration,
and continues with the next iteration — the failed task does not
terminate the run. -/
theorem c8_failure_continuation (env : Nat → IterEnvStep) (epicId : String)
    (total i rem : Nat) (tasks : List BeadsIssue) (nextTask : BeadsIssue)
    (err : ClaudeExecutionError)
    (hab : (env i).abortedAtStart = false)
    (hready : (env i).readyResult = Except.ok tasks)
    (hnext : findNextReadyTask tasks = some nextTask)
    (hexec : executeClaudeCommand (env i).obs = ClaudeExecutionResult.failure err)
    (hnab : err.type ≠ ClaudeErrorType.aborted)
    (hpost : isEpicComplete (env i).epicTasksResult = false)
    (hstop : (env i).stopAfter = false) :
    runIterationsFrom env epicId total i (rem + 1) =
      TraceItem.emit (Event.iterationStart i total) ::
      TraceItem.emit (Event.taskStart nextTask) ::
      outputTrace (env i).chunks ++
      (TraceItem.emit (Event.error err.message) ::
       TraceItem.beadsCall ["comments", "add", nextTask.id,
         "Iteration failed: " ++ err.message] ::
       TraceItem.emit (Event.taskComplete nextTask.id false) ::
       TraceItem.emit (Event.iterationComplete i) ::
       runIterationsFrom env epicId total (i + 1) rem) := by
  have hne : tasks.isEmpty = false := by
    cases tasks with
    | nil => cases hnext
    | cons t ts => rfl
  rw [runIterationsFrom]
  simp [hab, hready, hne, hnext, hexec, hnab, hpost, hstop]

/-- Fixture task for the C8 witness. -/
def taskC8 : BeadsIssue := mkTask "t8" BeadsStatus.«open» 0 []

/-- Fixture environment for the C8 witness: one ready task, process exits
nonzero with stderr, epic not complete, no graceful stop. -/
def envC8 : Nat → IterEnvStep := fun _ =>
  ⟨false, Except.ok [taskC8], Except.ok [taskC8], [],
    ⟨none, false, false, none, false, none, some 1, "boom"⟩, false⟩

/-- Witness for C8 at a concrete environment. -/
theorem c8_failure_continuation_witness :
    runIterationsFrom envC8 "E" 2 1 2 =
      TraceItem.emit (Event.iterationStart 1 2) ::
      TraceItem.emit (Event.taskStart taskC8) ::
      outputTrace (envC8 1).chunks ++
      (TraceItem.emit (Event.error "boom") ::
       TraceItem.beadsCall ["comments", "add", taskC8.id, "Iteration failed: boom"] ::
       TraceItem.emit (Event.taskComplete taskC8.id false) ::
       TraceItem.emit (Event.iterationComplete 1) ::
       runIterationsFrom envC8 "E" 2 2 1) :=
  c8_failure_continuation envC8 "E" 2 1 1 [taskC8] taskC8
    ⟨ClaudeErrorType.process_error, "boom", some 1⟩ rfl rfl (by decide) rfl
    (by decide) rfl rfl

/-- A trace whose event sequence ends with a single `complete` event and
contains no other `complete` event. -/
def EndsWithComplete (tr : List TraceItem) : Prop :=
  ∃ r pre, eventsOf tr = pre ++ [Event.complete r] ∧ ∀ e ∈ pre, isCompleteEvt e = false

lemma ewc_single (r : CompleteReason) :
    EndsWithComplete [TraceItem.emit (Event.complete r)] :=
  ⟨r, [], rfl, by simp⟩

lemma ewc_append_pre (pre tr : List TraceItem)
    (hpre : ∀ e ∈ eventsOf pre, isCompleteEvt e = false)
    (h : EndsWithComplete tr) : EndsWithComplete (pre ++ tr) := by
  obtain ⟨r, p, hp, hfree⟩ := h
  refine ⟨r, eventsOf pre ++ p, ?_, ?_⟩
  · rw [eventsOf_append, hp, List.append_assoc]
  · intro e he
    rcases List.mem_append.mp he with h1 | h1
    · exact hpre e h1
    · exact hfree e h1

lemma ewc_cons_emit (e : Event) (tr : List TraceItem)
    (he : isCompleteEvt e = false) (h : EndsWithComplete tr) :
    EndsWithComplete (TraceItem.emit e :: tr) :=
  ewc_append_pre [TraceItem.emit e] tr
    (by intro x hx; rcases List.mem_singleton.mp (by simpa [eventsOf] using hx) with h1; subst h1; exact he) h

lemma ewc_cons_call (args : List String) (tr : List TraceItem)
    (h : EndsWithComplete tr) : EndsWithComplete (TraceItem.beadsCall args :: tr) :=
  ewc_append_pre [TraceItem.beadsCall args] tr
    (by intro x hx; simp [eventsOf] at hx) h

lemma ewc_post (env : Nat → IterEnvStep) (epicId : String) (total i rem : Nat)
    (ih : EndsWithComplete (runIterationsFrom env epicId total (i + 1) rem)) :
    EndsWithComplete
      (TraceItem.emit (Event.iterationComplete i) ::
        (if isEpicComplete (env i).epicTasksResult then
          [TraceItem.beadsCall ["close", epicId],
           TraceItem.emit (Event.epicComplete epicId),
           TraceItem.emit (Event.complete CompleteReason.epic_complete)]
        else if (env i).stopAfter then
          [TraceItem.emit (Event.complete CompleteReason.stopped)]
        else runIterationsFrom env epicId total (i + 1) rem)) := by
  apply ewc_cons_emit _ _ (by rfl)
  by_cases hepic : isEpicComplete (env i).epicTasksResult = true
  · rw [if_pos hepic]
    exact ewc_cons_call _ _ (ewc_cons_emit _ _ (by rfl) (ewc_single _))
  · rw [if_neg hepic]
    by_cases hstop : (env i).stopAfter = true
    · rw [if_pos hstop]
      exact ewc_single _
    · rw [if_neg hstop]
      exact ih

lemma runIterationsFrom_ewc (env : Nat → IterEnvStep) (epicId : String) (total : Nat) :
    ∀ rem i, EndsWithComplete (runIterationsFrom env epicId total i rem) := by
  intro rem
  induction rem with
  | zero => intro i; exact ewc_single _
  | succ rem ih =>
    intro i
    simp only [runIterationsFrom]
    by_cases hab : (env i).abortedAtStart = true
    · simp only [hab, if_true]
      exact ewc_single _
    · have hab' : (env i).abortedAtStart = false := Bool.eq_false_iff.mpr hab
      simp only [hab', Bool.false_eq_true, if_false]
      cases hready : (env i).readyResult with
      | error msg =>
        exact ewc_cons_emit _ _ (by rfl) (ewc_cons_emit _ _ (by rfl) (ewc_single _))
      | ok tasks =>
        apply ewc_cons_emit _ _ (by rfl)
        by_cases htasks : tasks.isEmpty = true
        · simp only [htasks, if_true]
          apply ewc_cons_emit _ _ (by rfl)
          by_cases hepic : isEpicComplete (env i).epicTasksResult = true
          · rw [if_pos hepic]
            exact ewc_cons_call _ _ (ewc_cons_emit _ _ (by rfl) (ewc_single _))
          · rw [if_neg hepic]
            exact ewc_single _
        · have htasks' : tasks.isEmpty = false := Bool.eq_false_iff.mpr htasks
          simp only [htasks', Bool.false_eq_true, if_false]
          cases hnext : findNextReadyTask tasks with
          | none =>
            exact ewc_cons_emit _ _ (by rfl) (ewc_single _)
          | some nextTask =>
            apply ewc_append_pre
            · intro e he
              rw [eventsOf_cons_emit] at he
              rcases List.mem_cons.mp he with h1 | h1
              · subst h1; rfl
              · obtain ⟨d, hd⟩ :=
                  outputTraceGo_events (env i).chunks initialFormatterState e h1
                subst hd; rfl
            · split
              · split
                · exact ewc_cons_emit _ _ (by rfl) (ewc_single _)
                · exact ewc_cons_emit _ _ (by rfl) (ewc_cons_call _ _
                    (ewc_cons_emit _ _ (by rfl)
                      (ewc_post env epicId total i rem (ih (i + 1)))))
              · exact ewc_cons_emit _ _ (by rfl)
                  (ewc_post env epicId total i rem (ih (i + 1)))

/-- Claim C9: every invocation of `runIterations` emits exactly one
terminal `complete` event, as the last emitted event of the run, on every
code path. -/
theorem c9_complete_emitted_once_last (env : Nat → IterEnvStep) (epicId : String)
    (iterations : Nat) :
    ∃ r pre, eventsOf (runIterations env epicId iterations) =
      pre ++ [Event.complete r] ∧ ∀ e ∈ pre, isCompleteEvt e = false :=
  runIterationsFrom_ewc env epicId iterations iterations 1

lemma splitNl_ne_nil (s : List Char) : splitNl s ≠ [] := by
  cases s with
  | nil => simp [splitNl]
  | cons c cs =>
    rw [splitNl]
    split
    · simp
    · cases h : splitNl cs with
      | nil => simp [consHead]
      | cons l ls => simp [consHead]

lemma consHead_cons (c : Char) (l : List Char) (ls : List (List Char)) :
    consHead c (l :: ls) = (c :: l) :: ls := rfl

lemma lastD_cons_cons (x y : List Char) (ys : List (List Char)) :
    lastD (x :: y :: ys) = lastD (y :: ys) := rfl

lemma lastD_concat : ∀ (l : List (List Char)) (x : List Char), lastD (l ++ [x]) = x
  | [], _ => rfl
  | [_], _ => rfl
  | _ :: b :: bs, x => by
    rw [List.cons_append, List.cons_append, lastD_cons_cons, ← List.cons_append]
    exact lastD_concat (b :: bs) x

lemma lastD_cons_ne (x : List Char) (L : List (List Char)) (h : L ≠ []) :
    lastD (x :: L) = lastD L := by
  cases L with
  | nil => exact absurd rfl h
  | cons y ys => rfl

lemma dropLast_cons_ne (x : List Char) (L : List (List Char)) (h : L ≠ []) :
    (x :: L).dropLast = x :: L.dropLast := by
  cases L with
  | nil => exact absurd rfl h
  | cons y ys => rfl

lemma dropLast_concat_lastD (l : List (List Char)) (h : l ≠ []) :
    l.dropLast ++ [lastD l] = l := by
  induction l with
  | nil => exact absurd rfl h
  | cons a as ih =>
    cases as with
    | nil => rfl
    | cons b bs =>
      rw [lastD_cons_cons, dropLast_cons_ne _ _ (by simp), List.cons_append, ih (by simp)]

lemma lastD_consHead (c : Char) (l : List (List Char)) (h : l ≠ []) :
    lastD (consHead c l) = if l.length = 1 then c :: lastD l else lastD l := by
  cases l with
  | nil => exact absurd rfl h
  | cons x xs =>
    cases xs with
    | nil => simp [consHead, lastD]
    | cons y ys => simp [consHead, lastD_cons_cons, List.length_cons]

lemma splitNl_no_nl (s : List Char) (h : '\n' ∉ s) : splitNl s = [s] := by
  induction s with
  | nil => rfl
  | cons c cs ih =>
    have hc : ¬ c = '\n' := fun he => h (he ▸ List.mem_cons_self c cs)
    have hcs : '\n' ∉ cs := fun hm => h (List.mem_cons_of_mem c hm)
    rw [splitNl, if_neg hc, ih hcs, consHead_cons]

lemma no_nl_lastD_splitNl (s : List Char) : '\n' ∉ lastD (splitNl s) := by
  induction s with
  | nil => simp [splitNl, lastD]
  | cons c cs ih =>
    rw [splitNl]
    by_cases hc : c = '\n'
    · rw [if_pos hc, lastD_cons_ne _ _ (splitNl_ne_nil cs)]
      exact ih
    · rw [if_neg hc]
      rw [lastD_consHead c _ (splitNl_ne_nil cs)]
      split
      · intro hmem
        rcases List.mem_cons.mp hmem with h1 | h1
        · exact hc h1.symm
        · exact ih h1
      · exact ih

lemma splitNl_append (a b : List Char) :
    splitNl (a ++ b) = (splitNl a).dropLast ++ splitNl (lastD (splitNl a) ++ b) := by
  induction a with
  | nil => simp [splitNl, lastD]
  | cons c a' ih =>
    by_cases hc : c = '\n'
    · subst hc
      have hne := splitNl_ne_nil a'
      rw [List.cons_append, splitNl, if_pos rfl]
      conv_rhs => rw [splitNl, if_pos rfl]
      rw [dropLast_cons_ne _ _ hne, lastD_cons_ne _ _ hne, ih, List.cons_append]
    · rw [List.cons_append, splitNl, if_neg hc]
      conv_rhs => rw [splitNl, if_neg hc]
      cases h : splitNl a' with
      | nil => exact absurd h (splitNl_ne_nil a')
      | cons x xs =>
        rw [h] at ih
        rw [ih]
        cases xs with
        | nil =>
          simp only [List.dropLast_single, List.nil_append, lastD, consHead]
          rw [List.cons_append, splitNl, if_neg hc]
          simp [consHead]
        | cons y ys =>
          simp only [consHead, List.dropLast_cons₂, lastD_cons_cons, List.cons_append]

lemma splitNl_no_nl_concat (t : List Char) (h : '\n' ∉ t) :
    splitNl (t ++ ['\n']) = [t, []] := by
  induction t with
  | nil => rfl
  | cons c ts ih =>
    have hc : ¬ c = '\n' := fun he => h (he ▸ List.mem_cons_self c ts)
    have hts : '\n' ∉ ts := fun hm => h (List.mem_cons_of_mem c hm)
    rw [List.cons_append, splitNl, if_neg hc, ih hts, consHead_cons]

lemma splitNl_concat_nl (s : List Char) :
    splitNl (s ++ ['\n']) = splitNl s ++ [[]] := by
  rw [splitNl_append s ['\n'], splitNl_no_nl_concat _ (no_nl_lastD_splitNl s)]
  rw [show ([lastD (splitNl s), []] : List (List Char)) = [lastD (splitNl s)] ++ [[]] from rfl,
    ← List.append_assoc, dropLast_concat_lastD _ (splitNl_ne_nil s)]

/-- The decoded messages a line list contributes, in order. -/
def linesMsgs (ls : List (List Char)) : List FormattedOutput :=
  ls.filterMap formatStreamLineWithSource

/-- The raw assistant text parts a line list contributes, in order. -/
def linesRaws (ls : List (List Char)) : List (List Char) :=
  ls.filterMap rawAssistantOfLine

lemma linesMsgs_cons (l : List Char) (ls : List (List Char)) :
    linesMsgs (l :: ls) = (formatStreamLineWithSource l).toList ++ linesMsgs ls := by
  cases h : formatStreamLineWithSource l <;> simp [linesMsgs, List.filterMap_cons, h]

lemma linesRaws_cons (l : List Char) (ls : List (List Char)) :
    linesRaws (l :: ls) = (rawAssistantOfLine l).toList ++ linesRaws ls := by
  cases h : rawAssistantOfLine l <;> simp [linesRaws, List.filterMap_cons, h]

lemma linesMsgs_append (a b : List (List Char)) :
    linesMsgs (a ++ b) = linesMsgs a ++ linesMsgs b :=
  List.filterMap_append a b _

lemma linesRaws_append (a b : List (List Char)) :
    linesRaws (a ++ b) = linesRaws a ++ linesRaws b :=
  List.filterMap_append a b _

lemma processLines_eq (ls : List (List Char)) :
    ∀ st : FormatterState, processLines st ls =
      ⟨st.allMessages ++ linesMsgs ls, st.rawTextParts ++ linesRaws ls,
        st.incompleteLineBuffer⟩ := by
  induction ls with
  | nil =>
    intro st
    obtain ⟨a, r, b⟩ := st
    simp [processLines, linesMsgs, linesRaws]
  | cons l rest ih =>
    intro st
    have h1 : processLines st (l :: rest) = processLines (processLine st l) rest := rfl
    rw [h1, ih (processLine st l), processLine, linesMsgs_cons, linesRaws_cons]
    simp [List.append_assoc]

lemma linesMsgs_empty_line : linesMsgs [[]] = [] := rfl

lemma linesRaws_empty_line : linesRaws [[]] = [] := rfl

lemma processChunk_eq (st : FormatterState) (chunk : List Char) :
    (processChunk st chunk).1 =
      ⟨st.allMessages ++ linesMsgs (splitNl (st.incompleteLineBuffer ++ chunk)).dropLast,
       st.rawTextParts ++ linesRaws (splitNl (st.incompleteLineBuffer ++ chunk)).dropLast,
       lastD (splitNl (st.incompleteLineBuffer ++ chunk))⟩ := by
  have hlen : 0 < (splitNl (st.incompleteLineBuffer ++ chunk)).length := by
    cases h : splitNl (st.incompleteLineBuffer ++ chunk) with
    | nil => exact absurd h (splitNl_ne_nil _)
    | cons l ls => simp
  cases hend : endsWithNl chunk
  · have hcond : (!endsWithNl chunk &&
        decide (0 < (splitNl (st.incompleteLineBuffer ++ chunk)).length)) = true := by
      rw [hend]
      simp [hlen]
    simp only [processChunk, hcond, if_true]
    rw [processLines_eq]
  · have hcond : (!endsWithNl chunk &&
        decide (0 < (splitNl (st.incompleteLineBuffer ++ chunk)).length)) = false := by
      rw [hend]
      simp
    simp only [processChunk, hcond, Bool.false_eq_true, if_false]
    rw [processLines_eq]
    have hlast : chunk.getLast? = some '\n' := of_decide_eq_true hend
    have hch : chunk.dropLast ++ ['\n'] = chunk := List.dropLast_append_getLast? _ hlast
    have hfull : st.incompleteLineBuffer ++ chunk =
        (st.incompleteLineBuffer ++ chunk.dropLast) ++ ['\n'] := by
      rw [List.append_assoc, hch]
    rw [hfull, splitNl_concat_nl, lastD_concat, List.dropLast_concat,
      linesMsgs_append, linesRaws_append, linesMsgs_empty_line, linesRaws_empty_line,
      List.append_nil, List.append_nil]

lemma linesMsgs_single (l : List Char) :
    linesMsgs [l] = (formatStreamLineWithSource l).toList := by
  rw [linesMsgs_cons]
  simp [linesMsgs]

lemma linesRaws_single (l : List Char) :
    linesRaws [l] = (rawAssistantOfLine l).toList := by
  rw [linesRaws_cons]
  simp [linesRaws]

lemma flush_eq (st : FormatterState) :
    (getFilteredOutput st).1 =
      ⟨st.allMessages ++ linesMsgs [st.incompleteLineBuffer],
       st.rawTextParts ++ linesRaws [st.incompleteLineBuffer], []⟩ := by
  obtain ⟨a, r, b⟩ := st
  cases b with
  | nil =>
    rw [show (getFilteredOutput ⟨a, r, []⟩).1 = (⟨a, r, []⟩ : FormatterState) from rfl]
    simp only [linesMsgs_empty_line, linesRaws_empty_line, List.append_nil]
  | cons x xs =>
    rw [show (getFilteredOutput ⟨a, r, x :: xs⟩).1 =
      { processLine ⟨a, r, x :: xs⟩ (x :: xs) with incompleteLineBuffer := [] } from rfl]
    rw [processLine, linesMsgs_single, linesRaws_single]

lemma runChunks_cons (st : FormatterState) (c : List Char) (cs : List (List Char)) :
    runChunks st (c :: cs) = runChunks (processChunk st c).1 cs := rfl

lemma runChunks_flush (chunks : List (List Char)) :
    ∀ st : FormatterState, '\n' ∉ st.incompleteLineBuffer →
      (getFilteredOutput (runChunks st chunks)).1 =
        ⟨st.allMessages ++ linesMsgs (splitNl (st.incompleteLineBuffer ++ chunks.join)),
         st.rawTextParts ++ linesRaws (splitNl (st.incompleteLineBuffer ++ chunks.join)),
         []⟩ := by
  induction chunks with
  | nil =>
    intro st h
    rw [show runChunks st [] = st from rfl, flush_eq,
      show (([] : List (List Char)).join) = [] from rfl, List.append_nil,
      splitNl_no_nl _ h]
  | cons c cs ih =>
    intro st h
    rw [runChunks_cons, processChunk_eq st c]
    rw [ih _ (no_nl_lastD_splitNl _)]
    simp only
    rw [show (c :: cs).join = c ++ cs.join from rfl, ← List.append_assoc,
      splitNl_append (st.incompleteLineBuffer ++ c) cs.join,
      linesMsgs_append, linesRaws_append,
      ← List.append_assoc, ← List.append_assoc]

/-- Claim C1: chunk-boundary invariance of the stream decoder — feeding
any chunk sequence through `processChunk` and flushing with
`getFilteredOutput` produces exactly the same final formatter state (all
decoded messages, raw text parts, empty buffer) and the same filtered
output as decoding the whole concatenated text in one chunk. -/
theorem c1_chunk_invariance (chunks : List (List Char)) :
    runFormatter chunks = runFormatter [chunks.join] := by
  have h1 := runChunks_flush chunks initialFormatterState (by simp [initialFormatterState])
  have h2 := runChunks_flush [chunks.join] initialFormatterState
    (by simp [initialFormatterState])
  have hstate : (getFilteredOutput (runChunks initialFormatterState chunks)).1 =
      (getFilteredOutput (runChunks initialFormatterState [chunks.join])).1 := by
    rw [h1, h2]
    simp
  rw [runFormatter, runFormatter]
  rw [show getFilteredOutput (runChunks initialFormatterState chunks) =
    ((getFilteredOutput (runChunks initialFormatterState chunks)).1,
      filterMessagesForDisplay
        (getFilteredOutput (runChunks initialFormatterState chunks)).1.allMessages) from rfl]
  rw [show getFilteredOutput (runChunks initialFormatterState [chunks.join]) =
    ((getFilteredOutput (runChunks initialFormatterState [chunks.join])).1,
      filterMessagesForDisplay
        (getFilteredOutput (runChunks initialFormatterState [chunks.join])).1.allMessages) from rfl]
  rw [hstate]
